import Mathlib

/-!
Verification development for the scenic_routes_webapp repository.

The JavaScript utilities (`frontend/src/utils/geoUtils.js`,
`frontend/src/utils/gpxExport.js`) and the Python reference code of the
data pipeline (`docs/PRD.md`, section 8) are embedded shallowly:

* JavaScript / Python numbers are modelled by `ℚ` (every value that the
  programs actually manipulate here is a finite float, hence a rational;
  `typeof x == number` / `isFinite` checks are therefore always true in
  the model and are noted where they occur in the source);
* JavaScript strings are modelled by `List Char`;
* functions that can fail (return `null` / `None`, or raise) return
  `Option`;
* the two external geographic primitives used by the PRD's Python code
  (`geopy.distance.geodesic(...).kilometers` and the trigonometric core
  of `calculate_bearing`) compute transcendental real values and are
  modelled as parameters of the pipeline functions (a `GeoLib` record),
  so every theorem about the pipeline quantifies over them.

Components of the pipeline that the repository only documents
(`scripts/osm_utils.py`, `scripts/elevation.py`) are modelled from the
specification; their definitions carry a `Modelled from the spec:`
comment.
-/

namespace ScenicRoutes

/- Batteries marks the rational arithmetic operations `@[irreducible]`;
the concrete test-instance evaluations in this development go through
`decide`, which needs them to unfold. -/
attribute [local semireducible] Rat.add Rat.sub Rat.mul Rat.inv Rat.ofScientific

/-! ## geoUtils.js : Portugal bounds validation -/

/-- `PORTUGAL_BOUNDS` from `frontend/src/utils/geoUtils.js`
(lat 32–43, lon −32–−6, continental Portugal plus islands). -/
structure GeoBounds where
  latMin : ℚ
  latMax : ℚ
  lonMin : ℚ
  lonMax : ℚ

def PORTUGAL_BOUNDS : GeoBounds := { latMin := 32, latMax := 43, lonMin := -32, lonMax := -6 }

/-- `validatePortugalCoordinates(lat, lon)` from `geoUtils.js`.
The source first checks `typeof lat == number` and `isFinite`; both are
always true in the `ℚ` model.  It then returns `true` exactly when the
point is inside `PORTUGAL_BOUNDS`. -/
def validatePortugalCoordinates (lat lon : ℚ) : Bool :=
  let inLatBounds := decide (PORTUGAL_BOUNDS.latMin ≤ lat) && decide (lat ≤ PORTUGAL_BOUNDS.latMax)
  let inLonBounds := decide (PORTUGAL_BOUNDS.lonMin ≤ lon) && decide (lon ≤ PORTUGAL_BOUNDS.lonMax)
  if !inLatBounds || !inLonBounds then false else true

/-- The road record consumed by `validateRoadCoordinates`:
`start_lat`/`start_lon`/`end_lat`/`end_lon` may be `undefined`
(modelled by `none`), and the geometry coordinate array
(`[lon, lat]` pairs) is optional. -/
structure RoadCoords where
  start_lat : Option ℚ
  start_lon : Option ℚ
  end_lat : Option ℚ
  end_lon : Option ℚ
  coordinates : Option (List (ℚ × ℚ))

/-- The error messages pushed by `validateRoadCoordinates` are modelled
structurally (the source builds human-readable strings from the same
data). -/
inductive RoadCoordError where
  | startOutside (lat lon : ℚ)
  | endOutside (lat lon : ℚ)
  | geomOutside (index : ℕ) (lat lon : ℚ)
deriving DecidableEq

/-- Result record `\x7b valid, errors \x7d` of `validateRoadCoordinates`. -/
structure RoadValidation where
  valid : Bool
  errors : List RoadCoordError
deriving DecidableEq

/-- `validateRoadCoordinates(road)` from `geoUtils.js`: validates the
start point (when both fields are defined), then the end point, then
every geometry coordinate; `valid` is `errors.length === 0`. -/
def validateRoadCoordinates (road : RoadCoords) : RoadValidation :=
  let startErrs : List RoadCoordError :=
    match road.start_lat, road.start_lon with
    | some lat, some lon =>
        if validatePortugalCoordinates lat lon then [] else [.startOutside lat lon]
    | _, _ => []
  let endErrs : List RoadCoordError :=
    match road.end_lat, road.end_lon with
    | some lat, some lon =>
        if validatePortugalCoordinates lat lon then [] else [.endOutside lat lon]
    | _, _ => []
  let geomErrs : List RoadCoordError :=
    match road.coordinates with
    | some cs =>
        (cs.enum.filterMap fun p =>
          if validatePortugalCoordinates p.2.2 p.2.1 then none
          else some (.geomOutside p.1 p.2.2 p.2.1))
    | none => []
  let errors := startErrs ++ endErrs ++ geomErrs
  { valid := errors.length == 0, errors := errors }

/-- A point, given as latitude/longitude, lies inside the configured
Portugal bounding box. -/
def InPortugalBounds (lat lon : ℚ) : Prop :=
  PORTUGAL_BOUNDS.latMin ≤ lat ∧ lat ≤ PORTUGAL_BOUNDS.latMax ∧
    PORTUGAL_BOUNDS.lonMin ≤ lon ∧ lon ≤ PORTUGAL_BOUNDS.lonMax

theorem validatePortugalCoordinates_eq_true_iff (lat lon : ℚ) :
    validatePortugalCoordinates lat lon = true ↔ InPortugalBounds lat lon := by
  unfold validatePortugalCoordinates InPortugalBounds
  by_cases h1 : PORTUGAL_BOUNDS.latMin ≤ lat <;>
    by_cases h2 : lat ≤ PORTUGAL_BOUNDS.latMax <;>
    by_cases h3 : PORTUGAL_BOUNDS.lonMin ≤ lon <;>
    by_cases h4 : lon ≤ PORTUGAL_BOUNDS.lonMax <;>
    simp [h1, h2, h3, h4]

theorem geomErrs_nil_iff (cs : List (ℚ × ℚ)) :
    (cs.enum.filterMap fun p =>
        if validatePortugalCoordinates p.2.2 p.2.1 then none
        else some (RoadCoordError.geomOutside p.1 p.2.2 p.2.1)) = [] ↔
      ∀ p ∈ cs, InPortugalBounds p.2 p.1 := by
  rw [List.filterMap_eq_nil_iff, List.forall_mem_enum, List.forall_mem_iff_getElem]
  constructor
  · intro h i hi
    have hnone := h i hi
    by_cases hv : validatePortugalCoordinates (cs[i]).2 (cs[i]).1 = true
    · exact (validatePortugalCoordinates_eq_true_iff _ _).1 hv
    · simp [hv] at hnone
  · intro h i hi
    have hv := (validatePortugalCoordinates_eq_true_iff (cs[i]).2 (cs[i]).1).2 (h i hi)
    simp [hv]

theorem pointErrs_nil_iff (olat olon : Option ℚ) (mk : ℚ → ℚ → RoadCoordError) :
    (match olat, olon with
     | some lat, some lon =>
         if validatePortugalCoordinates lat lon then [] else [mk lat lon]
     | _, _ => ([] : List RoadCoordError)) = [] ↔
      ∀ lat lon, olat = some lat → olon = some lon → InPortugalBounds lat lon := by
  rcases olat with _ | lat <;> rcases olon with _ | lon
  · simp
  · simp
  · simp
  · dsimp only
    split_ifs with hv <;>
      simp_all [validatePortugalCoordinates_eq_true_iff]

theorem geomMatch_nil_iff (oc : Option (List (ℚ × ℚ))) :
    (match oc with
     | some cs =>
         cs.enum.filterMap fun p =>
           if validatePortugalCoordinates p.2.2 p.2.1 then none
           else some (RoadCoordError.geomOutside p.1 p.2.2 p.2.1)
     | none => ([] : List RoadCoordError)) = [] ↔
      ∀ cs, oc = some cs → ∀ p ∈ cs, InPortugalBounds p.2 p.1 := by
  rcases oc with _ | cs
  · simp
  · dsimp only
    rw [geomErrs_nil_iff]
    simp

/-- C1: `validateRoadCoordinates(road)` returns `valid = true` exactly
when every checked point — the start point (when defined), the end point
(when defined), and every geometry point — lies inside the configured
Portugal bounding box; hence a single out-of-bounds point among any
number of in-bounds points makes the whole candidate invalid. -/
theorem validateRoadCoordinates_valid_iff (road : RoadCoords) :
    (validateRoadCoordinates road).valid = true ↔
      ((∀ lat lon, road.start_lat = some lat → road.start_lon = some lon →
          InPortugalBounds lat lon) ∧
       (∀ lat lon, road.end_lat = some lat → road.end_lon = some lon →
          InPortugalBounds lat lon) ∧
       (∀ cs, road.coordinates = some cs → ∀ p ∈ cs, InPortugalBounds p.2 p.1)) := by
  have h1 := pointErrs_nil_iff road.start_lat road.start_lon RoadCoordError.startOutside
  have h2 := pointErrs_nil_iff road.end_lat road.end_lon RoadCoordError.endOutside
  have h3 := geomMatch_nil_iff road.coordinates
  simp only [validateRoadCoordinates, beq_iff_eq, List.length_eq_zero, List.append_eq_nil]
  exact Iff.trans and_assoc (and_congr h1 (and_congr h2 h3))

/-! ## PRD section 8.2 : metrics pipeline (Python reference code)

`docs/PRD.md` gives the Python implementation of
`calculate_total_distance`, `calculate_bearing`,
`calculate_angle_difference` and `analyze_curves`.  The two geographic
primitives — `geopy.distance.geodesic(p1, p2).kilometers` and the
trigonometric core of `calculate_bearing` — produce transcendental real
values, so they are abstracted into a `GeoLib` record over which all
theorems quantify; everything downstream of them is exact rational
arithmetic and is embedded literally. -/

/-- The external geographic primitives of the PRD code.
`geodesicKm (lat1, lon1) (lat2, lon2)` stands for
`geodesic(point1, point2).kilometers` (its arguments are `(lat, lon)`
pairs, exactly as in the Python), and `bearing p1 p2` stands for
`calculate_bearing(point1, point2)` on `(lon, lat)` coordinates. -/
structure GeoLib where
  geodesicKm : (ℚ × ℚ) → (ℚ × ℚ) → ℚ
  bearing : (ℚ × ℚ) → (ℚ × ℚ) → ℚ

/-- Python `round(x, 2)` (the model rounds exact halves up rather than
to even, which agrees with the Python float rounding everywhere except
on exact two-decimal midpoints). -/
def round2 (x : ℚ) : ℚ := (round (100 * x) : ℤ) / 100

/-- `calculate_total_distance(coordinates)` from PRD 8.2.1: sums the
geodesic distances of consecutive `(lon, lat)` points (passing them to
`geodesic` as `(lat, lon)`), rounded to 2 decimals. -/
def calculate_total_distance (G : GeoLib) (coordinates : List (ℚ × ℚ)) : ℚ :=
  round2 (((coordinates.zip coordinates.tail).map
    (fun pq => G.geodesicKm (pq.1.2, pq.1.1) (pq.2.2, pq.2.1))).sum)

/-- Python's built-in `abs` on a rational value. -/
def pyAbs (x : ℚ) : ℚ := if x < 0 then -x else x

/-- `calculate_angle_difference(bearing1, bearing2)` from PRD 8.2.3. -/
def calculate_angle_difference (bearing1 bearing2 : ℚ) : ℚ :=
  let diff := pyAbs (bearing2 - bearing1)
  if diff > 180 then 360 - diff else diff

/-- The dictionary returned by `analyze_curves`. -/
structure CurveMetrics where
  curve_count_total : ℕ
  curve_count_gentle : ℕ
  curve_count_moderate : ℕ
  curve_count_sharp : ℕ
  straight_count : ℕ
  longest_straight_km : ℚ
deriving DecidableEq

/-- The loop state of `analyze_curves`: the three curve counters, the
list of closed straight sections, and `current_straight_distance`. -/
structure CurveState where
  gentle : ℕ
  moderate : ℕ
  sharp : ℕ
  straights : List ℚ
  cur : ℚ
deriving DecidableEq

/-- Python `max(straights) if straights else 0`. -/
def pyMax : List ℚ → ℚ
  | [] => 0
  | x :: xs => xs.foldl max x

/-- The `bearings` list built by `analyze_curves`: the bearing of each
consecutive pair of coordinates. -/
def bearingsOf (G : GeoLib) (coordinates : List (ℚ × ℚ)) : List ℚ :=
  (coordinates.zip coordinates.tail).map (fun pq => G.bearing pq.1 pq.2)

/-- One iteration of the `analyze_curves` main loop, acting on the data
of loop index `i`: the pair `(bearings[i], bearings[i+1])` together with
the pair `(coordinates[i], coordinates[i+1])`. -/
def curveStep (G : GeoLib) (min_curve_angle : ℚ) (st : CurveState)
    (x : (ℚ × ℚ) × ((ℚ × ℚ) × (ℚ × ℚ))) : CurveState :=
  let angle_change := calculate_angle_difference x.1.1 x.1.2
  if angle_change ≥ min_curve_angle then
    let st1 :=
      if angle_change < 45 then { st with gentle := st.gentle + 1 }
      else if angle_change < 90 then { st with moderate := st.moderate + 1 }
      else { st with sharp := st.sharp + 1 }
    if st1.cur > 0 then { st1 with straights := st1.straights ++ [st1.cur], cur := 0 }
    else st1
  else
    let segment_distance := G.geodesicKm (x.2.1.2, x.2.1.1) (x.2.2.2, x.2.2.1)
    { st with cur := st.cur + segment_distance }

/-- The sequence of loop-iteration inputs of `analyze_curves`
(`i` ranging over `range(len(bearings) - 1)`). -/
def curveSteps (G : GeoLib) (coordinates : List (ℚ × ℚ)) :
    List ((ℚ × ℚ) × ((ℚ × ℚ) × (ℚ × ℚ))) :=
  ((bearingsOf G coordinates).zip (bearingsOf G coordinates).tail).zip
    (coordinates.zip coordinates.tail)

/-- `analyze_curves(coordinates, min_curve_angle)` from PRD 8.2.3:
returns `None` for fewer than 3 points, otherwise runs the
direction-change loop and assembles the metrics dictionary (closing a
trailing positive straight section first). -/
def analyze_curves (G : GeoLib) (coordinates : List (ℚ × ℚ)) (min_curve_angle : ℚ) :
    Option CurveMetrics :=
  if coordinates.length < 3 then none
  else
    let F := (curveSteps G coordinates).foldl (curveStep G min_curve_angle) ⟨0, 0, 0, [], 0⟩
    let straights := F.straights ++ (if F.cur > 0 then [F.cur] else [])
    let total_curves := F.gentle + F.moderate + F.sharp
    let longest_straight := pyMax straights
    some { curve_count_total := total_curves
           curve_count_gentle := F.gentle
           curve_count_moderate := F.moderate
           curve_count_sharp := F.sharp
           straight_count := straights.length
           longest_straight_km := round2 longest_straight }

/-! ### Reference notions used to state the curve-analysis claims -/

/-- The circular bearing difference at each interior point of the path
(the spec's "curve event" test data). -/
def angleChangesOf (G : GeoLib) (coordinates : List (ℚ × ℚ)) : List ℚ :=
  ((bearingsOf G coordinates).zip (bearingsOf G coordinates).tail).map
    (fun bb => calculate_angle_difference bb.1 bb.2)

/-- The geodesic length of each segment of the path (as fed to the
straight-section accumulator). -/
def segDistsOf (G : GeoLib) (coordinates : List (ℚ × ℚ)) : List ℚ :=
  (coordinates.zip coordinates.tail).map
    (fun pq => G.geodesicKm (pq.1.2, pq.1.1) (pq.2.2, pq.2.1))

/-- Each interior point paired as (bearing difference, incoming-segment
distance). -/
def curveRunPairs (G : GeoLib) (coordinates : List (ℚ × ℚ)) : List (ℚ × ℚ) :=
  (angleChangesOf G coordinates).zip (segDistsOf G coordinates)

/-- Split a list into the (possibly empty) maximal groups of elements
separated by the elements satisfying `p`; there is always at least one
group. -/
def splitSep (p : α → Bool) (l : List α) : List (List α) :=
  l.foldr (fun x acc => if p x then [] :: acc else (x :: acc.headD []) :: acc.tail) [[]]

/-- The straight-run sums of a (difference, distance) sequence: the
first maximal sub-threshold group continues an already accumulated
distance `cur`, each group's value is the sum of its distances. -/
def runsWith (a cur : ℚ) (ps : List (ℚ × ℚ)) : List ℚ :=
  match splitSep (fun q => decide (q.1 ≥ a)) ps with
  | [] => []
  | r :: rs => (cur + (r.map Prod.snd).sum) :: rs.map (fun g => (g.map Prod.snd).sum)

/-- The straight runs that `analyze_curves` actually closes and counts:
the maximal sub-threshold groups of interior points, each contributing
the sum of its segment distances, kept only when that sum is positive. -/
def closedStraightRuns (G : GeoLib) (a : ℚ) (coordinates : List (ℚ × ℚ)) : List ℚ :=
  (runsWith a 0 (curveRunPairs G coordinates)).filter (fun r => decide (0 < r))

/-- The bearing difference processed at a loop iteration. -/
def stepDiff (x : (ℚ × ℚ) × ((ℚ × ℚ) × (ℚ × ℚ))) : ℚ :=
  calculate_angle_difference x.1.1 x.1.2

/-- The segment distance processed at a loop iteration. -/
def stepDist (G : GeoLib) (x : (ℚ × ℚ) × ((ℚ × ℚ) × (ℚ × ℚ))) : ℚ :=
  G.geodesicKm (x.2.1.2, x.2.1.1) (x.2.2.2, x.2.2.1)

theorem splitSep_nil (p : α → Bool) : splitSep p [] = [[]] := rfl

theorem splitSep_cons (p : α → Bool) (x : α) (xs : List α) :
    splitSep p (x :: xs) =
      if p x then [] :: splitSep p xs
      else (x :: (splitSep p xs).headD []) :: (splitSep p xs).tail := rfl

theorem splitSep_ne_nil (p : α → Bool) (l : List α) : splitSep p l ≠ [] := by
  induction l with
  | nil => simp [splitSep_nil]
  | cons x xs ih =>
    rw [splitSep_cons]
    split_ifs <;> simp

theorem runsWith_nil (a cur : ℚ) : runsWith a cur [] = [cur] := by
  unfold runsWith
  rw [splitSep_nil]
  simp

theorem runsWith_cons_curve (a cur : ℚ) (x : ℚ × ℚ) (ps : List (ℚ × ℚ))
    (hx : a ≤ x.1) :
    runsWith a cur (x :: ps) = cur :: runsWith a 0 ps := by
  unfold runsWith
  rw [splitSep_cons]
  obtain ⟨r, rs, hrs⟩ : ∃ r rs, splitSep (fun q : ℚ × ℚ => decide (q.1 ≥ a)) ps = r :: rs := by
    rcases h : splitSep (fun q : ℚ × ℚ => decide (q.1 ≥ a)) ps with _ | ⟨r, rs⟩
    · exact absurd h (splitSep_ne_nil _ _)
    · exact ⟨r, rs, rfl⟩
  rw [if_pos (by simpa using hx), hrs]
  simp

theorem runsWith_cons_straight (a cur : ℚ) (x : ℚ × ℚ) (ps : List (ℚ × ℚ))
    (hx : ¬ a ≤ x.1) :
    runsWith a cur (x :: ps) = runsWith a (cur + x.2) ps := by
  unfold runsWith
  rw [splitSep_cons]
  obtain ⟨r, rs, hrs⟩ : ∃ r rs, splitSep (fun q : ℚ × ℚ => decide (q.1 ≥ a)) ps = r :: rs := by
    rcases h : splitSep (fun q : ℚ × ℚ => decide (q.1 ≥ a)) ps with _ | ⟨r, rs⟩
    · exact absurd h (splitSep_ne_nil _ _)
    · exact ⟨r, rs, rfl⟩
  rw [if_neg (by simpa using hx), hrs]
  simp [add_assoc]

theorem curveStep_gentle (G : GeoLib) (a : ℚ) (st : CurveState)
    (x : (ℚ × ℚ) × ((ℚ × ℚ) × (ℚ × ℚ))) :
    (curveStep G a st x).gentle =
      st.gentle + (if a ≤ stepDiff x ∧ stepDiff x < 45 then 1 else 0) := by
  unfold curveStep stepDiff
  by_cases h1 : a ≤ calculate_angle_difference x.1.1 x.1.2 <;>
    by_cases h2 : calculate_angle_difference x.1.1 x.1.2 < 45 <;>
    by_cases h3 : calculate_angle_difference x.1.1 x.1.2 < 90 <;>
    by_cases h4 : (0 : ℚ) < st.cur <;>
    simp [h1, h2, h3, h4]

theorem curveStep_moderate (G : GeoLib) (a : ℚ) (st : CurveState)
    (x : (ℚ × ℚ) × ((ℚ × ℚ) × (ℚ × ℚ))) :
    (curveStep G a st x).moderate =
      st.moderate +
        (if a ≤ stepDiff x ∧ ¬ stepDiff x < 45 ∧ stepDiff x < 90 then 1 else 0) := by
  unfold curveStep stepDiff
  by_cases h1 : a ≤ calculate_angle_difference x.1.1 x.1.2 <;>
    by_cases h2 : calculate_angle_difference x.1.1 x.1.2 < 45 <;>
    by_cases h3 : calculate_angle_difference x.1.1 x.1.2 < 90 <;>
    by_cases h4 : (0 : ℚ) < st.cur <;>
    simp [h1, h2, h3, h4]

theorem curveStep_sharp (G : GeoLib) (a : ℚ) (st : CurveState)
    (x : (ℚ × ℚ) × ((ℚ × ℚ) × (ℚ × ℚ))) :
    (curveStep G a st x).sharp =
      st.sharp +
        (if a ≤ stepDiff x ∧ ¬ stepDiff x < 45 ∧ ¬ stepDiff x < 90 then 1 else 0) := by
  unfold curveStep stepDiff
  by_cases h1 : a ≤ calculate_angle_difference x.1.1 x.1.2 <;>
    by_cases h2 : calculate_angle_difference x.1.1 x.1.2 < 45 <;>
    by_cases h3 : calculate_angle_difference x.1.1 x.1.2 < 90 <;>
    by_cases h4 : (0 : ℚ) < st.cur <;>
    simp [h1, h2, h3, h4]

/-- The counter components of the `analyze_curves` loop: each counter
grows by the number of processed bearing differences falling in its
branch of the classification. -/
theorem foldl_curveStep_counts (G : GeoLib) (a : ℚ)
    (steps : List ((ℚ × ℚ) × ((ℚ × ℚ) × (ℚ × ℚ)))) (st : CurveState) :
    (steps.foldl (curveStep G a) st).gentle =
        st.gentle + (steps.map stepDiff).countP (fun d => decide (a ≤ d ∧ d < 45)) ∧
    (steps.foldl (curveStep G a) st).moderate =
        st.moderate + (steps.map stepDiff).countP (fun d => decide (a ≤ d ∧ ¬ d < 45 ∧ d < 90)) ∧
    (steps.foldl (curveStep G a) st).sharp =
        st.sharp + (steps.map stepDiff).countP (fun d => decide (a ≤ d ∧ ¬ d < 45 ∧ ¬ d < 90)) := by
  induction steps generalizing st with
  | nil => simp
  | cons x xs ih =>
    obtain ⟨ih1, ih2, ih3⟩ := ih (curveStep G a st x)
    refine ⟨?_, ?_, ?_⟩ <;>
      simp only [List.foldl_cons, List.map_cons, List.countP_cons, ih1, ih2, ih3,
        curveStep_gentle, curveStep_moderate, curveStep_sharp, decide_eq_true_eq] <;>
      split_ifs <;> omega

theorem curveStep_curve_fields (G : GeoLib) (a : ℚ) (st : CurveState)
    (x : (ℚ × ℚ) × ((ℚ × ℚ) × (ℚ × ℚ))) (h1 : a ≤ stepDiff x) (hc : 0 ≤ st.cur) :
    (curveStep G a st x).straights =
        st.straights ++ (if 0 < st.cur then [st.cur] else []) ∧
    (curveStep G a st x).cur = 0 := by
  have hcur0 : ¬ 0 < st.cur → st.cur = 0 := fun h => le_antisymm (not_lt.1 h) hc
  unfold stepDiff at h1
  unfold curveStep
  by_cases h2 : calculate_angle_difference x.1.1 x.1.2 < 45 <;>
    by_cases h3 : calculate_angle_difference x.1.1 x.1.2 < 90 <;>
    by_cases h4 : (0 : ℚ) < st.cur <;>
    simp [h1, h2, h3, h4, hcur0]

theorem curveStep_straight_fields (G : GeoLib) (a : ℚ) (st : CurveState)
    (x : (ℚ × ℚ) × ((ℚ × ℚ) × (ℚ × ℚ))) (h1 : ¬ a ≤ stepDiff x) :
    (curveStep G a st x).straights = st.straights ∧
    (curveStep G a st x).cur = st.cur + stepDist G x := by
  unfold stepDiff at h1
  unfold curveStep stepDist
  simp [h1]

/-- The straight-section components of the `analyze_curves` loop: the
closed straight sections (plus any positive still-open trailing
accumulation) are exactly the positive straight-run sums of the
processed (difference, distance) sequence. -/
theorem foldl_curveStep_straights (G : GeoLib) (a : ℚ)
    (steps : List ((ℚ × ℚ) × ((ℚ × ℚ) × (ℚ × ℚ)))) (st : CurveState)
    (hd : ∀ x ∈ steps, 0 ≤ stepDist G x) (hc : 0 ≤ st.cur) :
    0 ≤ (steps.foldl (curveStep G a) st).cur ∧
    (steps.foldl (curveStep G a) st).straights ++
        (if 0 < (steps.foldl (curveStep G a) st).cur
         then [(steps.foldl (curveStep G a) st).cur] else []) =
      st.straights ++
        (runsWith a st.cur (steps.map (fun x => (stepDiff x, stepDist G x)))).filter
          (fun r => decide (0 < r)) := by
  induction steps generalizing st with
  | nil =>
    refine ⟨hc, ?_⟩
    rw [List.map_nil, runsWith_nil]
    simp [List.filter_cons]
  | cons x xs ih =>
    have hdx : 0 ≤ stepDist G x := hd x (by simp)
    have hdxs : ∀ y ∈ xs, 0 ≤ stepDist G y := fun y hy => hd y (by simp [hy])
    rw [List.foldl_cons, List.map_cons]
    by_cases h1 : a ≤ stepDiff x
    · obtain ⟨hs2, hc2⟩ := curveStep_curve_fields G a st x h1 hc
      obtain ⟨ihc, ihs⟩ := ih (curveStep G a st x) hdxs (by rw [hc2])
      refine ⟨ihc, ?_⟩
      rw [ihs, hs2, hc2]
      rw [runsWith_cons_curve a st.cur (stepDiff x, stepDist G x)
        (xs.map (fun y => (stepDiff y, stepDist G y))) h1]
      rw [List.filter_cons]
      by_cases h4 : (0 : ℚ) < st.cur <;> simp [h4]
    · obtain ⟨hs3, hc3⟩ := curveStep_straight_fields G a st x h1
      obtain ⟨ihc, ihs⟩ := ih (curveStep G a st x) hdxs
        (by rw [hc3]; exact add_nonneg hc hdx)
      refine ⟨ihc, ?_⟩
      rw [ihs, hs3, hc3]
      rw [runsWith_cons_straight a st.cur (stepDiff x, stepDist G x)
        (xs.map (fun y => (stepDiff y, stepDist G y))) h1]

theorem length_zip_bearings_le (G : GeoLib) (coords : List (ℚ × ℚ)) :
    ((bearingsOf G coords).zip (bearingsOf G coords).tail).length ≤
      (coords.zip coords.tail).length := by
  simp only [List.length_zip, List.length_tail, List.length_map, bearingsOf]
  omega

theorem curveSteps_map_diff (G : GeoLib) (coords : List (ℚ × ℚ)) :
    (curveSteps G coords).map stepDiff = angleChangesOf G coords := by
  unfold curveSteps angleChangesOf
  have h := List.map_fst_zip ((bearingsOf G coords).zip (bearingsOf G coords).tail)
    (coords.zip coords.tail) (length_zip_bearings_le G coords)
  calc (((bearingsOf G coords).zip (bearingsOf G coords).tail).zip
          (coords.zip coords.tail)).map stepDiff
      = ((((bearingsOf G coords).zip (bearingsOf G coords).tail).zip
          (coords.zip coords.tail)).map Prod.fst).map
            (fun bb => calculate_angle_difference bb.1 bb.2) := by
        rw [List.map_map]; rfl
    _ = ((bearingsOf G coords).zip (bearingsOf G coords).tail).map
          (fun bb => calculate_angle_difference bb.1 bb.2) := by rw [h]

theorem curveSteps_map_pair (G : GeoLib) (coords : List (ℚ × ℚ)) :
    (curveSteps G coords).map (fun x => (stepDiff x, stepDist G x)) =
      curveRunPairs G coords := by
  unfold curveSteps curveRunPairs angleChangesOf segDistsOf
  rw [List.zip_map]
  rfl

/-- Unfolding of `analyze_curves` on an input of at least 3 points, in
terms of the loop fold. -/
theorem analyze_curves_eq (G : GeoLib) (coords : List (ℚ × ℚ)) (a : ℚ)
    (h3 : ¬ coords.length < 3) :
    analyze_curves G coords a =
      some { curve_count_total :=
               ((curveSteps G coords).foldl (curveStep G a) ⟨0, 0, 0, [], 0⟩).gentle +
               ((curveSteps G coords).foldl (curveStep G a) ⟨0, 0, 0, [], 0⟩).moderate +
               ((curveSteps G coords).foldl (curveStep G a) ⟨0, 0, 0, [], 0⟩).sharp
             curve_count_gentle :=
               ((curveSteps G coords).foldl (curveStep G a) ⟨0, 0, 0, [], 0⟩).gentle
             curve_count_moderate :=
               ((curveSteps G coords).foldl (curveStep G a) ⟨0, 0, 0, [], 0⟩).moderate
             curve_count_sharp :=
               ((curveSteps G coords).foldl (curveStep G a) ⟨0, 0, 0, [], 0⟩).sharp
             straight_count :=
               (((curveSteps G coords).foldl (curveStep G a) ⟨0, 0, 0, [], 0⟩).straights ++
                 (if 0 < ((curveSteps G coords).foldl (curveStep G a) ⟨0, 0, 0, [], 0⟩).cur
                  then [((curveSteps G coords).foldl (curveStep G a) ⟨0, 0, 0, [], 0⟩).cur]
                  else [])).length
             longest_straight_km :=
               round2 (pyMax
                 (((curveSteps G coords).foldl (curveStep G a) ⟨0, 0, 0, [], 0⟩).straights ++
                  (if 0 < ((curveSteps G coords).foldl (curveStep G a) ⟨0, 0, 0, [], 0⟩).cur
                   then [((curveSteps G coords).foldl (curveStep G a) ⟨0, 0, 0, [], 0⟩).cur]
                   else []))) } := by
  rw [analyze_curves, if_neg h3]

theorem countP_threshold_split (l : List ℚ) :
    (l.countP fun d => decide ((20 : ℚ) ≤ d)) =
      (l.countP fun d => decide ((20 : ℚ) ≤ d ∧ d < 45)) +
      (l.countP fun d => decide ((45 : ℚ) ≤ d ∧ d < 90)) +
      (l.countP fun d => decide ((90 : ℚ) ≤ d)) := by
  induction l with
  | nil => simp
  | cons d l ih =>
    rcases lt_or_le d 20 with h | h
    · have c0 : ¬ (20 : ℚ) ≤ d := not_le.2 h
      have c1 : ¬ ((20 : ℚ) ≤ d ∧ d < 45) := fun hh => c0 hh.1
      have c2 : ¬ ((45 : ℚ) ≤ d ∧ d < 90) := fun hh => absurd hh.1 (by linarith)
      have c3 : ¬ (90 : ℚ) ≤ d := by linarith
      rw [List.countP_cons_of_neg _ _ (by simpa using c0),
        List.countP_cons_of_neg _ _ (by simpa using c1),
        List.countP_cons_of_neg _ _ (by simpa using c2),
        List.countP_cons_of_neg _ _ (by simpa using c3), ih]
    · rcases lt_or_le d 45 with h2 | h2
      · have c1 : (20 : ℚ) ≤ d ∧ d < 45 := ⟨h, h2⟩
        have c2 : ¬ ((45 : ℚ) ≤ d ∧ d < 90) := fun hh => absurd hh.1 (by linarith)
        have c3 : ¬ (90 : ℚ) ≤ d := by linarith
        rw [List.countP_cons_of_pos _ _ (by simpa using h),
          List.countP_cons_of_pos _ _ (by simpa using c1),
          List.countP_cons_of_neg _ _ (by simpa using c2),
          List.countP_cons_of_neg _ _ (by simpa using c3), ih]
        omega
      · rcases lt_or_le d 90 with h3 | h3
        · have c1 : ¬ ((20 : ℚ) ≤ d ∧ d < 45) := fun hh => absurd hh.2 (by linarith)
          have c2 : (45 : ℚ) ≤ d ∧ d < 90 := ⟨h2, h3⟩
          have c3 : ¬ (90 : ℚ) ≤ d := by linarith
          rw [List.countP_cons_of_pos _ _ (by simpa using h),
            List.countP_cons_of_neg _ _ (by simpa using c1),
            List.countP_cons_of_pos _ _ (by simpa using c2),
            List.countP_cons_of_neg _ _ (by simpa using c3), ih]
          omega
        · have c1 : ¬ ((20 : ℚ) ≤ d ∧ d < 45) := fun hh => absurd hh.2 (by linarith)
          have c2 : ¬ ((45 : ℚ) ≤ d ∧ d < 90) := fun hh => absurd hh.2 (by linarith)
          rw [List.countP_cons_of_pos _ _ (by simpa using h),
            List.countP_cons_of_neg _ _ (by simpa using c1),
            List.countP_cons_of_neg _ _ (by simpa using c2),
            List.countP_cons_of_pos _ _ (by simpa using h3), ih]
          omega

/-- A concrete `GeoLib` interpretation used for the winding-path test
instance: every segment is 1 km long, and the bearing of a segment is
the longitude of its first endpoint. -/
def windingGeo : GeoLib := { geodesicKm := fun _ _ => 1, bearing := fun p _ => p.1 }

/-- A 9-point synthetic winding path: under `windingGeo` its bearings
are 0,0,60,60,60,120,120,120, so it has exactly two 60° (moderate)
turns separated by three straight stretches of 1 km, 2 km and 2 km. -/
def windingPath : List (ℚ × ℚ) :=
  [(0, 0), (0, 1), (60, 0), (60, 1), (60, 2), (120, 0), (120, 1), (120, 2), (0, 3)]

def windingMetrics : CurveMetrics :=
  { curve_count_total := 2, curve_count_gentle := 0, curve_count_moderate := 2,
    curve_count_sharp := 0, straight_count := 3, longest_straight_km := 2 }

/-- C5: for any input accepted by `analyze_curves` (with the designed
20° threshold), an interior point is counted as a curve event exactly
when its circular bearing difference is ≥ 20° (the total equals the
number of such differences), the events are classified gentle [20°,45°),
moderate [45°,90°), sharp ≥ 90° (bearing differences computed by
`calculate_angle_difference` from bearings in [0°,360°) always lie in
[0°,180°], so sharp means [90°,180°]), and the total equals
gentle + moderate + sharp; moreover, on the 9-point winding path with
two 45°–90° turns and three straight stretches, the result has
`curve_count_total = 2`, `curve_count_moderate = 2`,
`straight_count = 3`. -/
theorem analyze_curves_classification :
    (∀ (G : GeoLib) (coords : List (ℚ × ℚ)) (m : CurveMetrics),
        analyze_curves G coords 20 = some m →
          m.curve_count_gentle =
            ((angleChangesOf G coords).countP fun d => decide ((20 : ℚ) ≤ d ∧ d < 45)) ∧
          m.curve_count_moderate =
            ((angleChangesOf G coords).countP fun d => decide ((45 : ℚ) ≤ d ∧ d < 90)) ∧
          m.curve_count_sharp =
            ((angleChangesOf G coords).countP fun d => decide ((90 : ℚ) ≤ d)) ∧
          m.curve_count_total =
            ((angleChangesOf G coords).countP fun d => decide ((20 : ℚ) ≤ d)) ∧
          m.curve_count_total =
            m.curve_count_gentle + m.curve_count_moderate + m.curve_count_sharp) ∧
      analyze_curves windingGeo windingPath 20 = some windingMetrics := by
  constructor
  · intro G coords m h
    have h3 : ¬ coords.length < 3 := by
      intro hlt
      rw [analyze_curves, if_pos hlt] at h
      cases h
    rw [analyze_curves_eq G coords 20 h3] at h
    injection h with h
    subst h
    obtain ⟨hg, hm, hs⟩ :=
      foldl_curveStep_counts G 20 (curveSteps G coords) ⟨0, 0, 0, [], 0⟩
    rw [curveSteps_map_diff] at hg hm hs
    have hmod :
        ((angleChangesOf G coords).countP
            fun d => decide ((20 : ℚ) ≤ d ∧ ¬ d < 45 ∧ d < 90)) =
          ((angleChangesOf G coords).countP fun d => decide ((45 : ℚ) ≤ d ∧ d < 90)) := by
      apply List.countP_congr
      intro d _
      simp only [decide_eq_true_eq]
      constructor
      · rintro ⟨hd1, hd2, hd3⟩
        exact ⟨not_lt.1 hd2, hd3⟩
      · rintro ⟨hd1, hd2⟩
        exact ⟨le_trans (by norm_num) hd1, not_lt.2 hd1, hd2⟩
    have hsharp :
        ((angleChangesOf G coords).countP
            fun d => decide ((20 : ℚ) ≤ d ∧ ¬ d < 45 ∧ ¬ d < 90)) =
          ((angleChangesOf G coords).countP fun d => decide ((90 : ℚ) ≤ d)) := by
      apply List.countP_congr
      intro d _
      simp only [decide_eq_true_eq]
      constructor
      · rintro ⟨hd1, hd2, hd3⟩
        exact not_lt.1 hd3
      · intro hd1
        exact ⟨le_trans (by norm_num) hd1, not_lt.2 (le_trans (by norm_num) hd1),
          not_lt.2 hd1⟩
    simp only [zero_add] at hg hm hs
    refine ⟨?_, ?_, ?_, ?_, ?_⟩
    · exact hg
    · rw [← hmod]; exact hm
    · rw [← hsharp]; exact hs
    · rw [countP_threshold_split, ← hmod, ← hsharp, ← hg, ← hm, ← hs]
    · rfl
  · decide

theorem analyze_curves_classification_witness :
    windingMetrics.curve_count_total = 2 ∧ windingMetrics.curve_count_moderate = 2 ∧
    windingMetrics.curve_count_total =
      windingMetrics.curve_count_gentle + windingMetrics.curve_count_moderate +
        windingMetrics.curve_count_sharp :=
  ⟨by decide, by decide,
    (analyze_curves_classification.1 windingGeo windingPath windingMetrics
      analyze_curves_classification.2).2.2.2.2⟩

/-- C6 (amended): the straight sections reported by `analyze_curves` are
exactly the maximal groups of consecutive sub-threshold bearing
differences whose accumulated (incoming-)segment distance is positive:
each such group's length is the sum of its segment distances, a curve
event ends the current group, the trailing group at the final point is
included, but a group is closed and counted only when its accumulated
distance is positive, and `longest_straight_km` is the maximum of the
counted runs (0 when there are none) rounded to two decimals. -/
theorem analyze_curves_straight_runs (G : GeoLib) (coords : List (ℚ × ℚ))
    (m : CurveMetrics) (hd : ∀ p q, 0 ≤ G.geodesicKm p q)
    (h : analyze_curves G coords 20 = some m) :
    m.straight_count = (closedStraightRuns G 20 coords).length ∧
    m.longest_straight_km = round2 (pyMax (closedStraightRuns G 20 coords)) := by
  have h3 : ¬ coords.length < 3 := by
    intro hlt
    rw [analyze_curves, if_pos hlt] at h
    cases h
  rw [analyze_curves_eq G coords 20 h3] at h
  injection h with h
  subst h
  have hd' : ∀ x ∈ curveSteps G coords, 0 ≤ stepDist G x := fun x _ => hd _ _
  obtain ⟨-, hstr⟩ :=
    foldl_curveStep_straights G 20 (curveSteps G coords) ⟨0, 0, 0, [], 0⟩ hd' le_rfl
  rw [curveSteps_map_pair] at hstr
  simp only [List.nil_append] at hstr
  exact ⟨congrArg List.length hstr, congrArg (fun l => round2 (pyMax l)) hstr⟩

/-- A `GeoLib` interpretation in which every geodesic distance is 0 (as
the real geodesic distance is between identical points) and every
bearing is 0. -/
def degenerateGeo : GeoLib := { geodesicKm := fun _ _ => 0, bearing := fun _ _ => 0 }

/-- C6 counterexample: on three identical points the single (trailing,
open) sub-threshold straight run has accumulated distance 0, and
`analyze_curves` does **not** close and count it: `straight_count` is 0,
not 1 as the claim's "an open trailing run at the final point is also
closed and counted" requires. -/
theorem analyze_curves_zero_run_counterexample :
    (analyze_curves degenerateGeo [(0, 0), (0, 0), (0, 0)] 20).map
        CurveMetrics.straight_count = some 0 := by decide

theorem analyze_curves_straight_runs_witness :
    windingMetrics.straight_count = (closedStraightRuns windingGeo 20 windingPath).length ∧
    windingMetrics.longest_straight_km =
      round2 (pyMax (closedStraightRuns windingGeo 20 windingPath)) :=
  analyze_curves_straight_runs windingGeo windingPath windingMetrics
    (fun _ _ => zero_le_one) (by decide)

/-- C2 counterexample: on an input of exactly two points the distance is
still computed (here 1 km), but `analyze_curves` returns `None` — no
metrics dictionary at all, in particular not a dictionary with
`straight_count = 1` as the claim states. -/
theorem analyze_curves_two_points_counterexample :
    calculate_total_distance windingGeo [(0, 0), (0, 1)] = 1 ∧
    analyze_curves windingGeo [(0, 0), (0, 1)] 20 = none := by
  exact ⟨by decide, by decide⟩

/-- C2 (amended): with 0 or 1 input points `calculate_total_distance`
returns 0.0; `analyze_curves` returns `None` (no metrics dictionary,
hence no curve or straight counts at all) for every input of fewer than
3 points — including the 2-point case, for which only the distance is
available. -/
theorem metrics_small_input_behavior (G : GeoLib) (coords : List (ℚ × ℚ)) (a : ℚ) :
    (coords.length ≤ 1 → calculate_total_distance G coords = 0) ∧
    (coords.length < 3 → analyze_curves G coords a = none) := by
  constructor
  · intro h
    have hz : coords.zip coords.tail = [] := by
      rcases coords with _ | ⟨x, _ | ⟨y, t⟩⟩
      · rfl
      · rfl
      · simp at h
    rw [calculate_total_distance, hz]
    simp [round2]
  · intro h
    rw [analyze_curves, if_pos h]

theorem metrics_small_input_behavior_witness :
    calculate_total_distance windingGeo [(3, 4)] = 0 ∧
    analyze_curves windingGeo [(0, 0), (0, 1)] 20 = none :=
  ⟨(metrics_small_input_behavior windingGeo [(3, 4)] 20).1 (by decide),
   (metrics_small_input_behavior windingGeo [(0, 0), (0, 1)] 20).2 (by decide)⟩

theorem validateRoadCoordinates_valid_iff_witness :
    InPortugalBounds 41 (-7) :=
  ((validateRoadCoordinates_valid_iff
      { start_lat := some 41, start_lon := some (-7), end_lat := none, end_lon := none,
        coordinates := some [(-7, 41)] }).1 (by decide)).1 41 (-7) rfl rfl

/-! ## PRD section 8.2.2 : elevation metrics -/

/-- The dictionary returned by `calculate_elevation_metrics`. -/
structure ElevationMetrics where
  elevation_max : ℤ
  elevation_min : ℤ
  elevation_gain : ℤ
  elevation_loss : ℤ
deriving DecidableEq

/-- Python `int(x)` on a rational value: truncation toward zero. -/
def pyInt (q : ℚ) : ℤ := if 0 ≤ q then ⌊q⌋ else ⌈q⌉

/-- Python `min` of a nonempty list (the `[]` case is never used by the
embedded code, which guards emptiness). -/
def pyMin : List ℚ → ℚ
  | [] => 0
  | x :: xs => xs.foldl min x

/-- Helper for `sliceEvery`: skip `k` elements, then keep one and
restart the countdown at `n - 1`. -/
def sliceEveryAux (n : ℕ) : ℕ → List α → List α
  | _, [] => []
  | 0, x :: xs => x :: sliceEveryAux n (n - 1) xs
  | k + 1, _ :: xs => sliceEveryAux n k xs

/-- Python slice `l[::n]`: every `n`-th element starting at index 0
(for `n ≥ 1`). -/
def sliceEvery (n : ℕ) (l : List α) : List α := sliceEveryAux n 0 l

theorem sliceEveryAux_eq_drop (n : ℕ) (k : ℕ) (l : List α) :
    sliceEveryAux n k l = sliceEveryAux n 0 (l.drop k) := by
  induction l generalizing k with
  | nil => simp [sliceEveryAux]
  | cons x xs ih =>
    cases k with
    | zero => simp
    | succ k =>
      rw [show sliceEveryAux n (k + 1) (x :: xs) = sliceEveryAux n k xs from rfl]
      rw [ih k, List.drop_succ_cons]

theorem sliceEvery_nil (n : ℕ) : sliceEvery n ([] : List α) = [] := rfl

theorem sliceEvery_cons (n : ℕ) (x : α) (xs : List α) :
    sliceEvery n (x :: xs) = x :: sliceEvery n (xs.drop (n - 1)) := by
  show x :: sliceEveryAux n (n - 1) xs = _
  rw [sliceEveryAux_eq_drop]
  rfl

/-- `calculate_elevation_metrics(coordinates)` from PRD 8.2.2.
`getEle lat lon` stands for the external `get_elevation_from_mapbox`
HTTP call; the sampling is the PRD's `coordinates[::10]`.  Python's
`max()` / `min()` raise `ValueError` on an empty sample list; that
exception is modelled by `none`. -/
def calculate_elevation_metrics (getEle : ℚ → ℚ → ℚ) (coordinates : List (ℚ × ℚ)) :
    Option ElevationMetrics :=
  let sampled_coords := sliceEvery 10 coordinates
  let elevations := sampled_coords.map (fun c => getEle c.2 c.1)
  if elevations.isEmpty then none
  else
    let elevation_max := pyMax elevations
    let elevation_min := pyMin elevations
    let gainLoss := (elevations.zip elevations.tail).foldl
      (fun gl p =>
        let diff := p.2 - p.1
        if diff > 0 then (gl.1 + diff, gl.2) else (gl.1, gl.2 + pyAbs diff))
      (0, 0)
    some { elevation_max := pyInt elevation_max
           elevation_min := pyInt elevation_min
           elevation_gain := pyInt gainLoss.1
           elevation_loss := pyInt gainLoss.2 }

/-- The elevation sample series the function actually works on. -/
def elevationsOf (getEle : ℚ → ℚ → ℚ) (coordinates : List (ℚ × ℚ)) : List ℚ :=
  (sliceEvery 10 coordinates).map (fun c => getEle c.2 c.1)

/-- Sum of all positive steps between consecutive samples. -/
def posStepSum (es : List ℚ) : ℚ :=
  (((es.zip es.tail).map (fun p => p.2 - p.1)).filter (fun d => decide (0 < d))).sum

/-- Sum of the magnitudes of all negative steps between consecutive
samples. -/
def negStepSum (es : List ℚ) : ℚ :=
  ((((es.zip es.tail).map (fun p => p.2 - p.1)).filter (fun d => decide (d < 0))).map
    (fun d => -d)).sum

theorem gainLoss_foldl_spec (diffs : List ℚ) (g0 l0 : ℚ) :
    (diffs.foldl
        (fun gl d => if d > 0 then (gl.1 + d, gl.2) else (gl.1, gl.2 + pyAbs d))
        (g0, l0)) =
      (g0 + (diffs.filter (fun d => decide (0 < d))).sum,
       l0 + ((diffs.filter (fun d => decide (d < 0))).map (fun d => -d)).sum) := by
  induction diffs generalizing g0 l0 with
  | nil => simp
  | cons d ds ih =>
    simp only [List.foldl_cons, List.filter_cons]
    rcases lt_trichotomy d 0 with hd | hd | hd
    · rw [if_neg (by simpa using not_lt.2 (le_of_lt hd))]
      rw [ih]
      have : pyAbs d = -d := if_pos hd
      simp [this, hd, not_lt.2 (le_of_lt hd), add_assoc]
    · subst hd
      rw [if_neg (by simp)]
      rw [ih]
      have : pyAbs 0 = 0 := by simp [pyAbs]
      simp [this]
    · rw [if_pos (by simpa using hd)]
      rw [ih]
      simp [hd, not_lt.2 (le_of_lt hd), add_assoc]

/-- C7: the elevation metrics are cumulative: for every realizable
elevation sample series, `elevation_gain` is (the integer truncation of)
the sum of all positive steps between consecutive samples and
`elevation_loss` the sum of the magnitudes of all negative steps, while
`elevation_max` / `elevation_min` are the extrema; in particular a
series [100,200,350,500,400,300,450,600] yields gain 700 and loss 200
(not the net 500). -/
theorem elevation_metrics_cumulative :
    (∀ (getEle : ℚ → ℚ → ℚ) (coords : List (ℚ × ℚ)),
        elevationsOf getEle coords ≠ [] →
          calculate_elevation_metrics getEle coords =
            some { elevation_max := pyInt (pyMax (elevationsOf getEle coords)),
                   elevation_min := pyInt (pyMin (elevationsOf getEle coords)),
                   elevation_gain := pyInt (posStepSum (elevationsOf getEle coords)),
                   elevation_loss := pyInt (negStepSum (elevationsOf getEle coords)) }) ∧
    (∀ (getEle : ℚ → ℚ → ℚ) (coords : List (ℚ × ℚ)),
        elevationsOf getEle coords = [100, 200, 350, 500, 400, 300, 450, 600] →
          calculate_elevation_metrics getEle coords =
            some { elevation_max := 600, elevation_min := 100,
                   elevation_gain := 700, elevation_loss := 200 }) := by
  have main : ∀ (getEle : ℚ → ℚ → ℚ) (coords : List (ℚ × ℚ)),
      elevationsOf getEle coords ≠ [] →
        calculate_elevation_metrics getEle coords =
          some { elevation_max := pyInt (pyMax (elevationsOf getEle coords)),
                 elevation_min := pyInt (pyMin (elevationsOf getEle coords)),
                 elevation_gain := pyInt (posStepSum (elevationsOf getEle coords)),
                 elevation_loss := pyInt (negStepSum (elevationsOf getEle coords)) } := by
    intro getEle coords hne
    have key : (((elevationsOf getEle coords).zip (elevationsOf getEle coords).tail).foldl
        (fun gl p =>
          let diff := p.2 - p.1
          if diff > 0 then (gl.1 + diff, gl.2) else (gl.1, gl.2 + pyAbs diff))
        (0, 0)) =
        (posStepSum (elevationsOf getEle coords), negStepSum (elevationsOf getEle coords)) := by
      have hfold := gainLoss_foldl_spec
        (((elevationsOf getEle coords).zip (elevationsOf getEle coords).tail).map
          (fun p => p.2 - p.1)) 0 0
      rw [List.foldl_map] at hfold
      simpa [posStepSum, negStepSum] using hfold
    rw [calculate_elevation_metrics,
      if_neg (by simpa [List.isEmpty_iff, elevationsOf] using hne)]
    show some (ElevationMetrics.mk
        (pyInt (pyMax (elevationsOf getEle coords)))
        (pyInt (pyMin (elevationsOf getEle coords)))
        (pyInt ((((elevationsOf getEle coords).zip (elevationsOf getEle coords).tail).foldl
          (fun gl p =>
            let diff := p.2 - p.1
            if diff > 0 then (gl.1 + diff, gl.2) else (gl.1, gl.2 + pyAbs diff))
          (0, 0)).1))
        (pyInt ((((elevationsOf getEle coords).zip (elevationsOf getEle coords).tail).foldl
          (fun gl p =>
            let diff := p.2 - p.1
            if diff > 0 then (gl.1 + diff, gl.2) else (gl.1, gl.2 + pyAbs diff))
          (0, 0)).2))) =
      some { elevation_max := pyInt (pyMax (elevationsOf getEle coords)),
             elevation_min := pyInt (pyMin (elevationsOf getEle coords)),
             elevation_gain := pyInt (posStepSum (elevationsOf getEle coords)),
             elevation_loss := pyInt (negStepSum (elevationsOf getEle coords)) }
    rw [key]
  refine ⟨main, ?_⟩
  intro getEle coords h
  rw [main getEle coords (by rw [h]; exact (by decide)), h]
  decide

/-- The spec's demonstration elevation series. -/
def elevSeries : List ℚ := [100, 200, 350, 500, 400, 300, 450, 600]

/-- 71 points along a line whose every-10th sample realizes
`elevSeries` under `elevDemoGetEle`. -/
def elevDemoCoords : List (ℚ × ℚ) := (List.range 71).map (fun i => ((i : ℚ), 0))

def elevDemoGetEle : ℚ → ℚ → ℚ := fun _ lon => elevSeries.getD (⌊lon / 10⌋).toNat 0

theorem elevation_metrics_cumulative_witness :
    calculate_elevation_metrics elevDemoGetEle elevDemoCoords =
      some ⟨600, 100, 700, 200⟩ :=
  elevation_metrics_cumulative.2 elevDemoGetEle elevDemoCoords (by decide)

/-! ## Elevation sampling (modelled from the spec) -/

theorem sliceEvery_head (n : ℕ) (l : List α) : (sliceEvery n l).head? = l.head? := by
  cases l with
  | nil => rfl
  | cons x xs => rw [sliceEvery_cons]; rfl

theorem sliceEveryAux_mem (n : ℕ) (hn : 0 < n) (l : List α) :
    ∀ (k : ℕ) (x : α), x ∈ sliceEveryAux n k l → ∃ j, l[k + j * n]? = some x := by
  induction l with
  | nil =>
    intro k x hx
    simp [sliceEveryAux] at hx
  | cons y ys ih =>
    intro k x hx
    cases k with
    | zero =>
      rw [show sliceEveryAux n 0 (y :: ys) = y :: sliceEveryAux n (n - 1) ys from rfl] at hx
      rcases List.mem_cons.1 hx with rfl | hx2
      · exact ⟨0, by simp⟩
      · obtain ⟨j, hj⟩ := ih (n - 1) x hx2
        refine ⟨j + 1, ?_⟩
        have hidx : 0 + (j + 1) * n = ((n - 1) + j * n) + 1 := by
          have : 1 ≤ n := hn
          calc 0 + (j + 1) * n = j * n + n := by ring_nf
            _ = ((n - 1) + j * n) + 1 := by omega
        rw [hidx, List.getElem?_cons_succ]
        exact hj
    | succ k =>
      have hx2 : x ∈ sliceEveryAux n k ys := hx
      obtain ⟨j, hj⟩ := ih k x hx2
      refine ⟨j, ?_⟩
      have hidx : (k + 1) + j * n = (k + j * n) + 1 := by omega
      rw [hidx, List.getElem?_cons_succ]
      exact hj

theorem sliceEvery_mem_index (n : ℕ) (hn : 0 < n) (l : List α) (x : α)
    (hx : x ∈ sliceEvery n l) : ∃ i, i % n = 0 ∧ l[i]? = some x := by
  obtain ⟨j, hj⟩ := sliceEveryAux_mem n hn l 0 x hx
  exact ⟨j * n, by simp [Nat.mul_mod_left], by simpa using hj⟩

/-- Modelled from the spec: `get_elevations_for_route` in the
repository's `scripts/elevation.py` is not under `src/`; the spec (and
the implementation notes) say the route is "sampled at a fixed interval
(not every point) to respect quota, always including first and last
points of the route", while the PRD sketch samples `coordinates[::10]`.
The model takes every `interval`-th point and appends the final point
when the plain slice missed it. -/
def sampleForElevation (interval : ℕ) (coords : List (ℚ × ℚ)) : List (ℚ × ℚ) :=
  let base := sliceEvery interval coords
  match coords.getLast? with
  | none => base
  | some last => if last ∈ base then base else base ++ [last]

/-- C8 (spec-modelled): the elevation fetch samples the route at the
fixed interval 10 rather than at every point — every sampled point sits
at an index divisible by 10, except possibly the appended final point —
and the sample always starts with the first point of the route and
always contains the last point, whatever the route's length modulo the
interval. -/
theorem elevation_sampling_first_last (coords : List (ℚ × ℚ)) (h : coords ≠ []) :
    (sampleForElevation 10 coords).head? = coords.head? ∧
    (∀ l, coords.getLast? = some l → l ∈ sampleForElevation 10 coords) ∧
    (∀ x ∈ sampleForElevation 10 coords,
        (∃ i, i % 10 = 0 ∧ coords[i]? = some x) ∨ coords.getLast? = some x) := by
  rcases hl : coords.getLast? with _ | last
  · rw [List.getLast?_eq_none_iff] at hl
    exact absurd hl h
  · unfold sampleForElevation
    rw [hl]
    dsimp only
    by_cases hmem : last ∈ sliceEvery 10 coords
    · rw [if_pos hmem]
      refine ⟨sliceEvery_head 10 coords, ?_, ?_⟩
      · intro l hleq
        injection hleq with hleq
        subst hleq
        exact hmem
      · intro x hx
        exact Or.inl (sliceEvery_mem_index 10 (by norm_num) coords x hx)
    · rw [if_neg hmem]
      refine ⟨?_, ?_, ?_⟩
      · rcases coords with _ | ⟨y, ys⟩
        · exact absurd rfl h
        · rw [sliceEvery_cons]
          rfl
      · intro l hleq
        injection hleq with hleq
        subst hleq
        exact List.mem_append_right _ (by simp)
      · intro x hx
        rcases List.mem_append.1 hx with hx1 | hx2
        · exact Or.inl (sliceEvery_mem_index 10 (by norm_num) coords x hx1)
        · rw [List.mem_singleton] at hx2
          subst hx2
          exact Or.inr rfl

/-- A 12-point route: the plain every-10th slice keeps indices 0 and 10,
so the final point (index 11) is only in the sample because it is
explicitly appended. -/
def sampleDemo : List (ℚ × ℚ) := (List.range 12).map (fun i => ((i : ℚ), 0))

theorem elevation_sampling_first_last_witness :
    (sampleForElevation 10 sampleDemo).head? = sampleDemo.head? ∧
      ((11 : ℚ), (0 : ℚ)) ∈ sampleForElevation 10 sampleDemo :=
  ⟨(elevation_sampling_first_last sampleDemo (by decide)).1,
   (elevation_sampling_first_last sampleDemo (by decide)).2.1 (11, 0) (by decide)⟩

/-! ## Relation/Segment Resolver (modelled from the spec)

The Resolver of `scripts/osm_utils.py` is not under `src/`: the PRD only
shows the early `get_road_from_osm` sketch, and `BUGS_AND_FIXES.md`
describes the best-match selection and the fragmentation handling.  The
definitions below are modelled from spec §4.4. -/

/-- Squared planar distance between two coordinates; comparing it with a
tolerance models the spec's "endpoints match within a small
tolerance". -/
def gap2 (p q : ℚ × ℚ) : ℚ := (p.1 - q.1) * (p.1 - q.1) + (p.2 - q.2) * (p.2 - q.2)

/-- Modelled from the spec: the result of `resolve` — a single chained
geometry, a `Fragmented` report carrying the fragment count, or
`NoMatch`. -/
inductive ResolveOutcome where
  | ok (geometry : List (ℚ × ℚ))
  | fragmented (fragmentCount : ℕ)
  | noMatch
deriving DecidableEq

/-- Modelled from the spec (§4.4 step 2): chain the remaining fragments
onto `acc` in order; the next fragment is appended when its start
matches the end of `acc` within tolerance, or reversed and appended when
its end matches; otherwise chaining fails. -/
def chainRest (tol : ℚ) (acc : List (ℚ × ℚ)) :
    List (List (ℚ × ℚ)) → Option (List (ℚ × ℚ))
  | [] => some acc
  | f :: fs =>
    match acc.getLast?, f.head?, f.getLast? with
    | some e, some hd, some lst =>
      if gap2 e hd ≤ tol then chainRest tol (acc ++ f) fs
      else if gap2 e lst ≤ tol then chainRest tol (acc ++ f.reverse) fs
      else none
    | _, _, _ => none

/-- Modelled from the spec (§4.4 steps 2–3): merge a route object's
ordered fragments by endpoint matching; when the fragments cannot be
chained (a gap exceeds the tolerance), do not concatenate them — mark
the candidate `fragmented` and surface the fragment count. -/
def resolveFragments (tol : ℚ) (frags : List (List (ℚ × ℚ))) : ResolveOutcome :=
  match frags with
  | [] => .noMatch
  | f :: fs =>
    match chainRest tol f fs with
    | some geometry => .ok geometry
    | none => .fragmented frags.length

/-- The spec's notion of a properly chained result, written independently
of the chaining algorithm: `ChainsOnto tol acc fs g` holds when `g` is
obtained from `acc` by appending the fragments of `fs` in order, each
either as-is (start matching the current end within tolerance) or
reversed (end matching), never joining across a gap above tolerance. -/
inductive ChainsOnto (tol : ℚ) :
    List (ℚ × ℚ) → List (List (ℚ × ℚ)) → List (ℚ × ℚ) → Prop
  | nil (acc : List (ℚ × ℚ)) : ChainsOnto tol acc [] acc
  | forward (acc f : List (ℚ × ℚ)) (fs : List (List (ℚ × ℚ))) (g : List (ℚ × ℚ))
      (e hd : ℚ × ℚ) :
      acc.getLast? = some e → f.head? = some hd → gap2 e hd ≤ tol →
      ChainsOnto tol (acc ++ f) fs g → ChainsOnto tol acc (f :: fs) g
  | reversed (acc f : List (ℚ × ℚ)) (fs : List (List (ℚ × ℚ))) (g : List (ℚ × ℚ))
      (e lst : ℚ × ℚ) :
      acc.getLast? = some e → f.getLast? = some lst → gap2 e lst ≤ tol →
      ChainsOnto tol (acc ++ f.reverse) fs g → ChainsOnto tol acc (f :: fs) g

theorem chainRest_sound (tol : ℚ) (fs : List (List (ℚ × ℚ))) :
    ∀ (acc g : List (ℚ × ℚ)), chainRest tol acc fs = some g → ChainsOnto tol acc fs g := by
  induction fs with
  | nil =>
    intro acc g h
    rw [chainRest] at h
    injection h with h
    subst h
    exact ChainsOnto.nil acc
  | cons f fs ih =>
    intro acc g h
    rw [chainRest] at h
    rcases he : acc.getLast? with _ | e <;> rw [he] at h
    · cases h
    · rcases hh : f.head? with _ | hd <;> rw [hh] at h
      · cases h
      · rcases hlst : f.getLast? with _ | lst <;> rw [hlst] at h
        · cases h
        · dsimp only at h
          split_ifs at h with h1 h2
          · exact ChainsOnto.forward acc f fs g e hd he hh h1 (ih _ _ h)
          · exact ChainsOnto.reversed acc f fs g e lst he hlst h2 (ih _ _ h)

/-- C3: the resolver never returns a geometry that is an arbitrary
concatenation of unconnected fragments: whenever it returns `ok g`, `g`
is a tolerance-respecting chain of the fragments in order (each possibly
reversed); and whenever the fragments cannot be chained, it returns
`fragmented` carrying the fragment count rather than any geometry. -/
theorem resolve_no_arbitrary_concatenation (tol : ℚ) (frags : List (List (ℚ × ℚ))) :
    (∀ g, resolveFragments tol frags = .ok g →
        ∃ f fs, frags = f :: fs ∧ ChainsOnto tol f fs g) ∧
    (∀ f fs, frags = f :: fs → chainRest tol f fs = none →
        resolveFragments tol frags = .fragmented frags.length) := by
  constructor
  · intro g hg
    rcases frags with _ | ⟨f, fs⟩
    · exact absurd hg (by rw [resolveFragments]; exact fun h => by cases h)
    · refine ⟨f, fs, rfl, ?_⟩
      rw [resolveFragments] at hg
      rcases hc : chainRest tol f fs with _ | g2 <;> rw [hc] at hg
      · cases hg
      · injection hg with hg
        subst hg
        exact chainRest_sound tol fs f g2 hc
  · intro f fs hfr hnone
    subst hfr
    rw [resolveFragments, hnone]

/-- Two disconnected fragments far apart: chaining fails, so the
resolver reports 2 fragments instead of concatenating. -/
def farFragments : List (List (ℚ × ℚ)) :=
  [[(0, 0), (0, 1)], [(5, 5), (5, 6)]]

theorem resolve_no_arbitrary_concatenation_witness :
    resolveFragments 1 farFragments = .fragmented 2 :=
  (resolve_no_arbitrary_concatenation 1 farFragments).2
    [(0, 0), (0, 1)] [[(5, 5), (5, 6)]] rfl (by decide)

/-! ## Best-match route-object selection (modelled from the spec) -/

/-- Modelled from the spec: the bounding box (south, west, north, east)
used to score candidate route objects. -/
structure BBox where
  south : ℚ
  west : ℚ
  north : ℚ
  east : ℚ

/-- A `(lon, lat)` point lies inside the bounding box. -/
def pointInBBox (b : BBox) (p : ℚ × ℚ) : Bool :=
  decide (b.west ≤ p.1) && decide (p.1 ≤ b.east) &&
    decide (b.south ≤ p.2) && decide (p.2 ≤ b.north)

/-- Modelled from the spec (§4.4 step 1): an object's score is the
number of its constituent points inside the bounding box. -/
def bboxScore (b : BBox) (obj : List (ℚ × ℚ)) : ℕ := obj.countP (pointInBBox b)

/-- One comparison step of the best-match scan: keep the current best
unless the next object scores strictly higher. -/
def bestStep (b : BBox) (acc : Option (List (ℚ × ℚ))) (o : List (ℚ × ℚ)) :
    Option (List (ℚ × ℚ)) :=
  match acc with
  | none => some o
  | some cur => if bboxScore b o > bboxScore b cur then some o else some cur

/-- Modelled from the spec (§4.4 step 1 and failure mode): scan the
route objects keeping the highest-scoring one; return `none` (NoMatch)
when no object scores above zero. -/
def selectBestObject (b : BBox) (objs : List (List (ℚ × ℚ))) :
    Option (List (ℚ × ℚ)) :=
  match objs.foldl (bestStep b) none with
  | some o => if bboxScore b o > 0 then some o else none
  | none => none

theorem foldl_bestStep_spec (b : BBox) (objs : List (List (ℚ × ℚ))) :
    ∀ (acc : Option (List (ℚ × ℚ))),
      ((∃ o ∈ objs, objs.foldl (bestStep b) acc = some o) ∨
        objs.foldl (bestStep b) acc = acc) ∧
      (∀ o ∈ objs, ∀ x, objs.foldl (bestStep b) acc = some x →
        bboxScore b o ≤ bboxScore b x) ∧
      (∀ c x, acc = some c → objs.foldl (bestStep b) acc = some x →
        bboxScore b c ≤ bboxScore b x) := by
  induction objs with
  | nil =>
    intro acc
    refine ⟨Or.inr rfl, by simp, ?_⟩
    intro c x hc hx
    rw [List.foldl_nil, hc] at hx
    injection hx with hx
    subst hx
    exact le_refl _
  | cons o os ih =>
    intro acc
    rw [List.foldl_cons]
    obtain ⟨ihA, ihB, ihC⟩ := ih (bestStep b acc o)
    have hstep : ∃ a2, bestStep b acc o = some a2 ∧ bboxScore b o ≤ bboxScore b a2 ∧
        (∀ c, acc = some c → bboxScore b c ≤ bboxScore b a2) := by
      rcases acc with _ | cur
      · exact ⟨o, rfl, le_refl _, by intro c hc; cases hc⟩
      · rw [show bestStep b (some cur) o =
            (if bboxScore b o > bboxScore b cur then some o else some cur) from rfl]
        by_cases hgt : bboxScore b o > bboxScore b cur
        · refine ⟨o, by rw [if_pos hgt], le_refl _, ?_⟩
          intro c hc
          injection hc with hc
          subst hc
          exact le_of_lt hgt
        · refine ⟨cur, by rw [if_neg hgt], not_lt.1 hgt, ?_⟩
          intro c hc
          injection hc with hc
          subst hc
          exact le_refl _
    obtain ⟨a2, ha2, hoa2, hacc⟩ := hstep
    refine ⟨?_, ?_, ?_⟩
    · rcases ihA with ⟨o2, ho2, heq⟩ | heq
      · exact Or.inl ⟨o2, List.mem_cons_of_mem o ho2, heq⟩
      · rcases acc with _ | cur
        · exact Or.inl ⟨o, List.mem_cons_self o os, by rw [heq]; rfl⟩
        · by_cases hgt : bboxScore b o > bboxScore b cur
          · refine Or.inl ⟨o, List.mem_cons_self o os, ?_⟩
            rw [heq]
            show (if bboxScore b o > bboxScore b cur then some o else some cur) = some o
            rw [if_pos hgt]
          · refine Or.inr ?_
            rw [heq]
            show (if bboxScore b o > bboxScore b cur then some o else some cur) = some cur
            rw [if_neg hgt]
    · intro o2 ho2 x hx
      rcases List.mem_cons.1 ho2 with rfl | ho2m
      · exact le_trans hoa2 (ihC a2 x ha2 hx)
      · exact ihB o2 ho2m x hx
    · intro c x hc x_eq
      exact le_trans (hacc c hc) (ihC a2 x ha2 x_eq)

/-- The continental-Portugal bounding box `(36.96, -9.50, 42.15, -6.19)`
used by the reference system. -/
def portugalBBox : BBox := { south := 36.96, west := -9.50, north := 42.15, east := -6.19 }

/-- A short route object (the 1.8 km one) whose points are in Burkina
Faso, outside the Portugal bounding box. -/
def burkinaObj : List (ℚ × ℚ) := [(-1.50, 12.40), (-1.49, 12.41)]

/-- A long route object (the 728 km one) whose points all lie inside the
Portugal bounding box. -/
def portugalObj : List (ℚ × ℚ) :=
  [(-8.61, 41.15), (-8.00, 40.20), (-7.90, 38.50), (-7.93, 37.02)]

/-- C4: the resolver scores each top-level route object by the number of
its constituent points inside the configured bounding box and returns a
highest-scoring object (with a strictly positive score) only; in the
1.8 km vs 728 km scenario — a short object outside the Portugal bounding
box against a long one whose points are inside — the long object is
selected. -/
theorem selectBestObject_argmax (b : BBox) (objs : List (List (ℚ × ℚ))) :
    (∀ sel, selectBestObject b objs = some sel →
        sel ∈ objs ∧ 0 < bboxScore b sel ∧
          ∀ o ∈ objs, bboxScore b o ≤ bboxScore b sel) ∧
      selectBestObject portugalBBox [burkinaObj, portugalObj] = some portugalObj := by
  constructor
  · intro sel hsel
    rw [selectBestObject] at hsel
    rcases hf : objs.foldl (bestStep b) none with _ | best <;> rw [hf] at hsel
    · cases hsel
    · dsimp only at hsel
      split_ifs at hsel with hpos
      · injection hsel with hsel
        subst hsel
        obtain ⟨hA, hB, -⟩ := foldl_bestStep_spec b objs none
        refine ⟨?_, hpos, fun o ho => hB o ho best hf⟩
        rcases hA with ⟨o2, ho2, heq⟩ | heq
        · rw [hf] at heq
          injection heq with heq
          subst heq
          exact ho2
        · rw [hf] at heq
          cases heq
  · decide

theorem selectBestObject_argmax_witness :
    portugalObj ∈ [burkinaObj, portugalObj] ∧
      0 < bboxScore portugalBBox portugalObj ∧
      bboxScore portugalBBox burkinaObj ≤ bboxScore portugalBBox portugalObj :=
  have h := (selectBestObject_argmax portugalBBox [burkinaObj, portugalObj]).1
    portugalObj (selectBestObject_argmax portugalBBox [burkinaObj, portugalObj]).2
  ⟨h.1, h.2.1, h.2.2 burkinaObj (by decide)⟩

/-! ## geoUtils.js : WKT ↔ GeoJSON conversion

JavaScript strings are modelled as `List Char`; the string methods the
source uses (`split`, `trim`, first-occurrence `replace`, `join`,
template-literal number interpolation, `Number(...)`) are modelled by
the `js*` functions below. -/

/-- The characters of a Lean string literal. -/
def str (s : String) : List Char := s.toList

/-- JS `String.prototype.split(sep)` with a one-character separator
(splits on every occurrence). -/
def jsSplit (c : Char) (s : List Char) : List (List Char) :=
  splitSep (fun x => x == c) s

/-- JS `String.prototype.trim` (the embedded strings only ever carry
ordinary spaces). -/
def jsTrim (s : List Char) : List Char :=
  ((s.dropWhile (fun ch => ch == ' ')).reverse.dropWhile (fun ch => ch == ' ')).reverse

/-- JS `String.prototype.replace(pat, "")`: remove the first occurrence
of `pat`. -/
def jsRemoveFirst (pat : List Char) : List Char → List Char
  | [] => []
  | x :: xs =>
    if pat.isPrefixOf (x :: xs) then (x :: xs).drop pat.length
    else x :: jsRemoveFirst pat xs

/-- JS `Array.prototype.join(sep)`. -/
def jsJoin (sep : List Char) : List (List Char) → List Char
  | [] => []
  | [p] => p
  | p :: ps => p ++ sep ++ jsJoin sep ps

/-- The decimal digit character for `d < 10`. -/
def digitChar (d : ℕ) : Char := Char.ofNat (48 + d)

/-- Numeric value of a digit character. -/
def charVal (c : Char) : ℕ := c.toNat - 48

def isDigitChar (c : Char) : Bool :=
  decide (48 ≤ c.toNat) && decide (c.toNat ≤ 57)

/-- Value of a digit string read as a base-10 natural number. -/
def parseNatVal (s : List Char) : ℕ := s.foldl (fun a c => 10 * a + charVal c) 0

/-- Decimal digits of a natural number, most significant first (the
first argument is recursion fuel; `natDigits` supplies enough). -/
def natDigitsAux : ℕ → ℕ → List Char
  | 0, _ => []
  | fuel + 1, n =>
    if n < 10 then [digitChar n]
    else natDigitsAux fuel (n / 10) ++ [digitChar (n % 10)]

def natDigits (n : ℕ) : List Char := natDigitsAux (n + 1) n

/-- The number of fractional digits needed to write a reduced fraction
with denominator `d` as a finite decimal: the least `k ≤ d` with
`d ∣ 10 ^ k`, when one exists. -/
def decExp (d : ℕ) : Option ℕ :=
  (List.range (d + 1)).find? (fun k => 10 ^ k % d == 0)

/-- A rational with a finite decimal representation — which every
JavaScript (IEEE 754) number has. -/
def IsDecimalRat (q : ℚ) : Prop := (decExp q.den).isSome = true

/-- The integer `q * 10 ^ k` of a decimal rational (`k` fractional
digits suffice). -/
def decScaled (q : ℚ) (k : ℕ) : ℤ := q.num * ((10 ^ k / q.den : ℕ) : ℤ)

/-- The digit string of `|q * 10 ^ k|`, zero-padded to at least `k + 1`
digits (so that a decimal point can be placed `k` digits from the
right). -/
def decPadded (q : ℚ) (k : ℕ) : List Char :=
  List.replicate (k + 1 - (natDigits (decScaled q k).natAbs).length) '0' ++
    natDigits (decScaled q k).natAbs

/-- Model of JS number-to-string conversion (as in a template literal)
for values with a finite decimal representation: the exact decimal
numeral of the value (sign, integer digits, and — when needed — a
decimal point followed by the fractional digits). -/
def numToStr (q : ℚ) : List Char :=
  match decExp q.den with
  | none => ['0']
  | some k =>
    let padded := decPadded q k
    (if q.num < 0 then ['-'] else []) ++
      (if k = 0 then padded
       else padded.take (padded.length - k) ++ '.' :: padded.drop (padded.length - k))

/-- Parse the unsigned part of a plain decimal numeral (the helper of
`jsNumber`): digits, or digits-point-digits. -/
def parseDecBody (neg : Bool) (rest : List Char) : Option ℚ :=
  match jsSplit '.' rest with
  | [intPart] =>
    if intPart ≠ [] ∧ intPart.all isDigitChar then
      some ((if neg then -1 else 1) * (parseNatVal intPart : ℚ))
    else none
  | [intPart, fracPart] =>
    if intPart ≠ [] ∧ fracPart ≠ [] ∧ intPart.all isDigitChar ∧ fracPart.all isDigitChar then
      some ((if neg then -1 else 1) *
        ((parseNatVal intPart : ℚ) +
          (parseNatVal fracPart : ℚ) / ((10 ^ fracPart.length : ℕ) : ℚ)))
    else none
  | _ => none

/-- Model of JS `Number(...)` on the plain decimal grammar (optional
minus sign, digits, optional point with digits); other strings — which
the embedded code never produces — give `NaN`, modelled as `none`. -/
def jsNumber (s : List Char) : Option ℚ :=
  match s with
  | c :: r => if c == '-' then parseDecBody true r else parseDecBody false s
  | [] => parseDecBody false s

theorem digitChar_toNat (d : ℕ) (h : d < 10) : (digitChar d).toNat = 48 + d := by
  interval_cases d <;> decide

theorem charVal_digitChar (d : ℕ) (h : d < 10) : charVal (digitChar d) = d := by
  interval_cases d <;> decide

theorem isDigitChar_digitChar (d : ℕ) (h : d < 10) : isDigitChar (digitChar d) = true := by
  interval_cases d <;> decide

theorem isDigitChar_ne (c c2 : Char) (h : isDigitChar c = true)
    (h2 : c2.toNat < 48 ∨ 57 < c2.toNat) : c ≠ c2 := by
  intro he
  subst he
  simp only [isDigitChar, Bool.and_eq_true, decide_eq_true_eq] at h
  omega

theorem parseNatVal_foldl (s : List Char) :
    ∀ acc : ℕ,
      s.foldl (fun a c => 10 * a + charVal c) acc = acc * 10 ^ s.length + parseNatVal s := by
  induction s with
  | nil => intro acc; simp [parseNatVal]
  | cons c s ih =>
    intro acc
    rw [List.foldl_cons, ih]
    have h2 : parseNatVal (c :: s) = charVal c * 10 ^ s.length + parseNatVal s := by
      rw [parseNatVal, List.foldl_cons, ih]
      simp
    rw [h2, List.length_cons]
    ring

theorem parseNatVal_cons (c : Char) (s : List Char) :
    parseNatVal (c :: s) = charVal c * 10 ^ s.length + parseNatVal s := by
  rw [parseNatVal, List.foldl_cons, parseNatVal_foldl]
  simp

theorem parseNatVal_append (a b : List Char) :
    parseNatVal (a ++ b) = parseNatVal a * 10 ^ b.length + parseNatVal b := by
  rw [parseNatVal, List.foldl_append, parseNatVal_foldl]
  rfl

theorem natDigitsAux_spec :
    ∀ fuel n : ℕ, n < fuel →
      parseNatVal (natDigitsAux fuel n) = n ∧ natDigitsAux fuel n ≠ [] ∧
        ∀ c ∈ natDigitsAux fuel n, isDigitChar c = true := by
  intro fuel
  induction fuel with
  | zero => intro n h; omega
  | succ fuel ih =>
    intro n h
    rw [show natDigitsAux (fuel + 1) n =
        (if n < 10 then [digitChar n]
         else natDigitsAux fuel (n / 10) ++ [digitChar (n % 10)]) from rfl]
    by_cases h10 : n < 10
    · rw [if_pos h10]
      refine ⟨?_, by simp, ?_⟩
      · rw [parseNatVal_cons]
        simp [parseNatVal, charVal_digitChar n h10]
      · intro c hc
        rw [List.mem_singleton] at hc
        subst hc
        exact isDigitChar_digitChar n h10
    · rw [if_neg h10]
      have hdiv : n / 10 < fuel := by omega
      obtain ⟨ih1, ih2, ih3⟩ := ih (n / 10) hdiv
      refine ⟨?_, by simp, ?_⟩
      · rw [parseNatVal_append, ih1, parseNatVal_cons]
        simp [parseNatVal, charVal_digitChar (n % 10) (by omega)]
        omega
      · intro c hc
        rcases List.mem_append.1 hc with hc1 | hc2
        · exact ih3 c hc1
        · rw [List.mem_singleton] at hc2
          subst hc2
          exact isDigitChar_digitChar (n % 10) (by omega)

theorem parseNatVal_natDigits (n : ℕ) : parseNatVal (natDigits n) = n :=
  (natDigitsAux_spec (n + 1) n (by omega)).1

theorem natDigits_ne_nil (n : ℕ) : natDigits n ≠ [] :=
  (natDigitsAux_spec (n + 1) n (by omega)).2.1

theorem natDigits_all_digit (n : ℕ) : ∀ c ∈ natDigits n, isDigitChar c = true :=
  (natDigitsAux_spec (n + 1) n (by omega)).2.2

theorem parseNatVal_replicate_zero (k : ℕ) (s : List Char) :
    parseNatVal (List.replicate k '0' ++ s) = parseNatVal s := by
  induction k with
  | zero => simp
  | succ k ih =>
    rw [List.replicate_succ, List.cons_append, parseNatVal_cons, ih]
    have : charVal '0' = 0 := by decide
    simp [this]

theorem splitSep_no_sep (p : α → Bool) (l : List α) (h : ∀ x ∈ l, p x = false) :
    splitSep p l = [l] := by
  induction l with
  | nil => rfl
  | cons x xs ih =>
    rw [splitSep_cons, if_neg (by simp [h x (List.mem_cons_self x xs)]),
      ih (fun y hy => h y (List.mem_cons_of_mem x hy))]
    rfl

theorem splitSep_append_sep (p : α → Bool) (A : List α) (y : α) (B : List α)
    (hA : ∀ x ∈ A, p x = false) (hy : p y = true) :
    splitSep p (A ++ y :: B) = A :: splitSep p B := by
  induction A with
  | nil =>
    rw [List.nil_append, splitSep_cons, if_pos hy]
  | cons a A ih =>
    rw [List.cons_append, splitSep_cons,
      if_neg (by simp [hA a (List.mem_cons_self a A)]),
      ih (fun y hy => hA y (List.mem_cons_of_mem a hy))]
    rfl

theorem jsTrim_cons_space (s : List Char) : jsTrim (' ' :: s) = jsTrim s := by
  rw [jsTrim, jsTrim, List.dropWhile_cons_of_pos (by decide)]

theorem jsTrim_eq_self (s : List Char)
    (h1 : ∀ c, s.head? = some c → (c == ' ') = false)
    (h2 : ∀ c, s.getLast? = some c → (c == ' ') = false) : jsTrim s = s := by
  rcases s with _ | ⟨c, cs⟩
  · rfl
  · rw [jsTrim, List.dropWhile_cons_of_neg (by simp [h1 c rfl])]
    rcases hr : (c :: cs).reverse with _ | ⟨l, rest⟩
    · simp at hr
    · have hl : (c :: cs).getLast? = some l := by
        rw [← List.head?_reverse, hr]
        rfl
      rw [List.dropWhile_cons_of_neg (by simp [h2 l hl]), ← hr, List.reverse_reverse]

theorem jsRemoveFirst_of_prefix (pat rest : List Char) (hp : pat ≠ []) :
    jsRemoveFirst pat (pat ++ rest) = rest := by
  rcases pat with _ | ⟨c, pc⟩
  · exact absurd rfl hp
  · rw [List.cons_append, jsRemoveFirst, if_pos ?hpre]
    case hpre =>
      rw [List.isPrefixOf_iff_prefix, ← List.cons_append]
      exact List.prefix_append (c :: pc) rest
    rw [← List.cons_append, List.drop_left]

theorem jsRemoveFirst_last (c : Char) (s : List Char) (h : c ∉ s) :
    jsRemoveFirst [c] (s ++ [c]) = s := by
  induction s with
  | nil =>
    rw [List.nil_append, jsRemoveFirst, if_pos (by simp [List.isPrefixOf])]
    rfl
  | cons x xs ih =>
    have hx : ¬ c = x := fun he => h (he ▸ List.mem_cons_self x xs)
    rw [List.cons_append, jsRemoveFirst, if_neg (by simp [List.isPrefixOf, hx]),
      ih (fun hm => h (List.mem_cons_of_mem x hm))]

theorem decExp_dvd (d k : ℕ) (h : decExp d = some k) : d ∣ 10 ^ k := by
  have hp := List.find?_some h
  simp only [beq_iff_eq] at hp
  exact Nat.dvd_iff_mod_eq_zero.2 hp

theorem numScaled_eq (q : ℚ) (k : ℕ) (hdvd : q.den ∣ 10 ^ k) :
    ((q.num * ((10 ^ k / q.den : ℕ) : ℤ) : ℤ) : ℚ) = q * ((10 ^ k : ℕ) : ℚ) := by
  have hden0 : (q.den : ℚ) ≠ 0 := Nat.cast_ne_zero.2 q.den_nz
  have hmul : ((10 ^ k / q.den : ℕ) : ℚ) * (q.den : ℚ) = ((10 ^ k : ℕ) : ℚ) := by
    rw [← Nat.cast_mul, Nat.div_mul_cancel hdvd]
  have hq : (q.num : ℚ) = q * (q.den : ℚ) := by
    have h3 : ((q.num : ℚ) / (q.den : ℚ)) * (q.den : ℚ) = q * (q.den : ℚ) :=
      congrArg (fun x => x * ((q.den : ℚ))) (Rat.num_div_den q)
    rwa [div_mul_cancel₀ _ hden0] at h3
  calc ((q.num * ((10 ^ k / q.den : ℕ) : ℤ) : ℤ) : ℚ)
      = (q.num : ℚ) * ((10 ^ k / q.den : ℕ) : ℚ) := by
        rw [Int.cast_mul, Int.cast_natCast]
    _ = q * (((10 ^ k / q.den : ℕ) : ℚ) * (q.den : ℚ)) := by rw [hq]; ring
    _ = q * ((10 ^ k : ℕ) : ℚ) := by rw [hmul]

theorem mulDivisor_pos (q : ℚ) (k : ℕ) (hdvd : q.den ∣ 10 ^ k) :
    0 < (10 ^ k / q.den : ℕ) :=
  Nat.div_pos (Nat.le_of_dvd (Nat.pos_pow_of_pos k (by norm_num)) hdvd) q.pos

theorem jsNumber_neg (r : List Char) : jsNumber ('-' :: r) = parseDecBody true r := rfl

theorem jsNumber_no_minus (s : List Char)
    (h : ∀ ch, s.head? = some ch → (ch == '-') = false) :
    jsNumber s = parseDecBody false s := by
  rcases s with _ | ⟨c, r⟩
  · rfl
  · show (if c == '-' then parseDecBody true r else parseDecBody false (c :: r)) = _
    rw [h c rfl]
    simp

theorem parseDecBody_digits (neg : Bool) (s : List Char) (h1 : s ≠ [])
    (h2 : s.all isDigitChar = true) (hnd : ∀ ch ∈ s, (ch == '.') = false) :
    parseDecBody neg s = some ((if neg then -1 else 1) * (parseNatVal s : ℚ)) := by
  unfold parseDecBody
  rw [show jsSplit '.' s = [s] from splitSep_no_sep _ s hnd]
  dsimp only
  rw [if_pos ⟨h1, h2⟩]

theorem parseDecBody_point (neg : Bool) (A B : List Char)
    (hA1 : A ≠ []) (hB1 : B ≠ [])
    (hA2 : A.all isDigitChar = true) (hB2 : B.all isDigitChar = true)
    (hAnd : ∀ ch ∈ A, (ch == '.') = false) (hBnd : ∀ ch ∈ B, (ch == '.') = false) :
    parseDecBody neg (A ++ '.' :: B) =
      some ((if neg then -1 else 1) *
        ((parseNatVal A : ℚ) + (parseNatVal B : ℚ) / ((10 ^ B.length : ℕ) : ℚ))) := by
  unfold parseDecBody
  rw [show jsSplit '.' (A ++ '.' :: B) = [A, B] by
    rw [jsSplit, splitSep_append_sep _ A '.' B hAnd (by decide),
      splitSep_no_sep _ B hBnd]]
  dsimp only
  rw [if_pos ⟨hA1, hB1, hA2, hB2⟩]

theorem jsNumber_render (c : Prop) [inst : Decidable c] (k : ℕ) (padded : List Char)
    (hd : ∀ ch ∈ padded, isDigitChar ch = true) (hne : padded ≠ [])
    (hlen : k < padded.length) :
    jsNumber ((if c then ['-'] else []) ++
        (if k = 0 then padded
         else padded.take (padded.length - k) ++ '.' :: padded.drop (padded.length - k))) =
      some ((if c then (-1 : ℚ) else 1) *
        ((parseNatVal padded : ℚ) / ((10 ^ k : ℕ) : ℚ))) := by
  have hnd : ∀ ch ∈ padded, (ch == '.') = false := fun ch hch =>
    beq_eq_false_iff_ne.2 (isDigitChar_ne ch '.' (hd ch hch) (Or.inl (by decide)))
  have hall : padded.all isDigitChar = true := List.all_eq_true.2 hd
  by_cases hk : k = 0
  · subst hk
    rw [if_pos rfl]
    by_cases hc : c
    · rw [if_pos hc, if_pos hc, List.singleton_append, jsNumber_neg,
        parseDecBody_digits true padded hne hall hnd]
      norm_num
    · rw [if_neg hc, if_neg hc, List.nil_append,
        jsNumber_no_minus padded ?hh0, parseDecBody_digits false padded hne hall hnd]
      · norm_num
      case hh0 =>
        intro ch hch
        rcases padded with _ | ⟨c0, rest⟩
        · exact absurd rfl hne
        · simp only [List.head?_cons, Option.some_inj] at hch
          rw [← hch]
          exact beq_eq_false_iff_ne.2
            (isDigitChar_ne c0 '-' (hd c0 (List.mem_cons_self c0 rest)) (Or.inl (by decide)))
  · rw [if_neg hk]
    have hAB : padded.take (padded.length - k) ++ padded.drop (padded.length - k) = padded :=
      List.take_append_drop _ _
    have hBlen : (padded.drop (padded.length - k)).length = k := by
      rw [List.length_drop]
      omega
    have hAlen : (padded.take (padded.length - k)).length = padded.length - k := by
      rw [List.length_take]
      omega
    have hAne : padded.take (padded.length - k) ≠ [] := by
      intro h0
      rw [← List.length_eq_zero] at h0
      omega
    have hBne : padded.drop (padded.length - k) ≠ [] := by
      intro h0
      rw [← List.length_eq_zero] at h0
      omega
    have hAd : ∀ ch ∈ padded.take (padded.length - k), isDigitChar ch = true :=
      fun ch hch => hd ch (List.take_subset _ _ hch)
    have hBd : ∀ ch ∈ padded.drop (padded.length - k), isDigitChar ch = true :=
      fun ch hch => hd ch (List.drop_subset _ _ hch)
    have hsplit : ∀ neg : Bool,
        parseDecBody neg
            (padded.take (padded.length - k) ++ '.' :: padded.drop (padded.length - k)) =
          some ((if neg then -1 else 1) *
            ((parseNatVal (padded.take (padded.length - k)) : ℚ) +
              (parseNatVal (padded.drop (padded.length - k)) : ℚ) /
                ((10 ^ (padded.drop (padded.length - k)).length : ℕ) : ℚ))) :=
      fun neg => parseDecBody_point neg _ _ hAne hBne
        (List.all_eq_true.2 hAd) (List.all_eq_true.2 hBd)
        (fun ch hch => hnd ch (List.take_subset _ _ hch))
        (fun ch hch => hnd ch (List.drop_subset _ _ hch))
    have h10 : ((10 ^ k : ℕ) : ℚ) ≠ 0 := by positivity
    have hval : (parseNatVal (padded.take (padded.length - k)) : ℚ) +
        (parseNatVal (padded.drop (padded.length - k)) : ℚ) / ((10 ^ k : ℕ) : ℚ) =
        (parseNatVal padded : ℚ) / ((10 ^ k : ℕ) : ℚ) := by
      have hsum : parseNatVal (padded.take (padded.length - k)) * 10 ^ k +
          parseNatVal (padded.drop (padded.length - k)) = parseNatVal padded := by
        conv_rhs => rw [← hAB]
        rw [parseNatVal_append, hBlen]
      rw [← hsum]
      push_cast
      field_simp
    by_cases hc : c
    · rw [if_pos hc, if_pos hc, List.singleton_append, jsNumber_neg, hsplit true,
        hBlen, hval]
      norm_num
    · rw [if_neg hc, if_neg hc, List.nil_append, jsNumber_no_minus _ ?hh1, hsplit false,
        hBlen, hval]
      · norm_num
      case hh1 =>
        intro ch hch
        rcases heq : padded.take (padded.length - k) with _ | ⟨a0, as⟩
        · exact absurd heq hAne
        · rw [heq, List.cons_append] at hch
          simp only [List.head?_cons, Option.some_inj] at hch
          rw [← hch]
          have hmem : a0 ∈ padded.take (padded.length - k) := by
            rw [heq]
            exact List.mem_cons_self a0 as
          exact beq_eq_false_iff_ne.2
            (isDigitChar_ne a0 '-' (hAd a0 hmem) (Or.inl (by decide)))

theorem jsNumber_numToStr (q : ℚ) (hq : IsDecimalRat q) :
    jsNumber (numToStr q) = some q := by
  obtain ⟨k, hk⟩ := Option.isSome_iff_exists.1 hq
  have hdvd : q.den ∣ 10 ^ k := decExp_dvd q.den k hk
  have hmq : ((decScaled q k : ℤ) : ℚ) = q * ((10 ^ k : ℕ) : ℚ) := numScaled_eq q k hdvd
  have hd : ∀ ch ∈ decPadded q k, isDigitChar ch = true := by
    intro ch hch
    rcases List.mem_append.1 hch with h1 | h2
    · rw [List.eq_of_mem_replicate h1]
      decide
    · exact natDigits_all_digit _ ch h2
  have hne : decPadded q k ≠ [] := by
    intro h0
    exact natDigits_ne_nil _ (List.append_eq_nil.1 h0).2
  have hlen : k < (decPadded q k).length := by
    rw [decPadded, List.length_append, List.length_replicate]
    have h1 : natDigits (decScaled q k).natAbs ≠ [] := natDigits_ne_nil _
    have h2 : 1 ≤ (natDigits (decScaled q k).natAbs).length :=
      List.length_pos.2 h1
    omega
  have hpv : parseNatVal (decPadded q k) = (decScaled q k).natAbs := by
    rw [decPadded, parseNatVal_replicate_zero, parseNatVal_natDigits]
  have hrw : numToStr q =
      (if q.num < 0 then ['-'] else []) ++
        (if k = 0 then decPadded q k
         else (decPadded q k).take ((decPadded q k).length - k) ++
           '.' :: (decPadded q k).drop ((decPadded q k).length - k)) := by
    unfold numToStr
    rw [hk]
  rw [hrw, jsNumber_render (q.num < 0) k (decPadded q k) hd hne hlen, hpv]
  have h10 : (0 : ℚ) < ((10 ^ k : ℕ) : ℚ) := by positivity
  have habs : (((decScaled q k).natAbs : ℕ) : ℚ) = |((decScaled q k : ℤ) : ℚ)| := by
    rw [Int.cast_natAbs, Int.cast_abs]
  congr 1
  rw [habs, hmq]
  rcases lt_or_le q.num 0 with hneg | hpos
  · have hqneg : q < 0 := Rat.num_neg.1 hneg
    have hx : q * ((10 ^ k : ℕ) : ℚ) < 0 := mul_neg_of_neg_of_pos hqneg h10
    rw [if_pos hneg, abs_of_neg hx]
    field_simp
  · have hqpos : 0 ≤ q := Rat.num_nonneg.1 hpos
    have hx : 0 ≤ q * ((10 ^ k : ℕ) : ℚ) := mul_nonneg hqpos (le_of_lt h10)
    rw [if_neg (not_lt.2 hpos), abs_of_nonneg hx, one_mul,
      mul_div_cancel_right₀ q (ne_of_gt h10)]

/-- A GeoJSON value as the conversion functions see it: a `LineString`
geometry carrying its coordinate array, some other geometry type, or a
`Feature` wrapping a geometry. A coordinate component is `some q` for a
finite number and `none` for a non-number (`undefined` from a short
destructuring, or `NaN` from a failed `Number(...)`). -/
inductive GeoObject where
  | lineString (coordinates : List (Option ℚ × Option ℚ)) : GeoObject
  | otherGeometry : GeoObject
  | feature (geometry : GeoObject) : GeoObject
deriving DecidableEq

/-- Whether a coordinate component is a JS number, i.e. a rational with
a finite decimal expansion (every finite IEEE 754 double is one, since
its denominator is a power of two). -/
def optDecimal : Option ℚ → Bool
  | none => false
  | some q => (decExp q.den).isSome

/-- One pair's checks of `validateCoordinates`: both components are
finite numbers, longitude in [-180, 180], latitude in [-90, 90]. -/
def validCoordPair (c : Option ℚ × Option ℚ) : Bool :=
  match c with
  | (some lon, some lat) =>
    decide (-180 ≤ lon) && decide (lon ≤ 180) && decide (-90 ≤ lat) && decide (lat ≤ 90)
  | _ => false

/-- geoUtils.js `validateCoordinates`: an array of at least 2 pairs,
each a pair of finite numbers in longitude/latitude range. (The
structural checks of the source — array-ness, pair length, number
type — are carried by the embedding's types.) -/
def validateCoordinates (coordinates : List (Option ℚ × Option ℚ)) : Bool :=
  decide (2 ≤ coordinates.length) && coordinates.all validCoordPair

/-- Template-literal rendering `${x}` of a coordinate component: a
finite number prints its decimal numeral; a non-number prints a
non-numeric word (the `NaN` case — never reached after validation). -/
def numToStrJS : Option ℚ → List Char
  | some q => numToStr q
  | none => str "NaN"

/-- geoUtils.js `geojsonToWKT`: unwrap a Feature, require a LineString,
validate, then join "`${lon} ${lat}`" with "`, `" inside
"`LINESTRING(...)`". -/
def geojsonToWKT (geojson : Option GeoObject) : Option (List Char) :=
  match geojson with
  | none => none
  | some g =>
    match (match g with | GeoObject.feature geom => geom | _ => g) with
    | GeoObject.lineString coordinates =>
      if validateCoordinates coordinates then
        some (str "LINESTRING(" ++
          jsJoin (str ", ")
            (coordinates.map (fun c => numToStrJS c.1 ++ ' ' :: numToStrJS c.2)) ++
          [')'])
      else none
    | _ => none

/-- geoUtils.js `wktToGeoJSON`: strip the first "`LINESTRING(`" and the
first "`)`", split on commas, parse each trimmed pair's first two
space-separated tokens with `Number`, validate, and wrap the result in
a Feature. -/
def wktToGeoJSON (wkt : Option (List Char)) : Option GeoObject :=
  match wkt with
  | none => none
  | some s =>
    if s = [] then none
    else
      let coordsString := jsRemoveFirst [')'] (jsRemoveFirst (str "LINESTRING(") s)
      let coordPairs := jsSplit ',' coordsString
      let coordinates := coordPairs.map (fun pair =>
        let nums := (jsSplit ' ' (jsTrim pair)).map jsNumber
        (nums.getD 0 none, nums.getD 1 none))
      if validateCoordinates coordinates then
        some (GeoObject.feature (GeoObject.lineString coordinates))
      else none

theorem numToStrJS_some (q : ℚ) : numToStrJS (some q) = numToStr q := rfl

theorem decPadded_digits (q : ℚ) (k : ℕ) : ∀ ch ∈ decPadded q k, isDigitChar ch = true := by
  intro ch hch
  rcases List.mem_append.1 hch with h1 | h2
  · rw [List.eq_of_mem_replicate h1]
    decide
  · exact natDigits_all_digit _ ch h2

theorem decPadded_ne_nil (q : ℚ) (k : ℕ) : decPadded q k ≠ [] := fun h0 =>
  natDigits_ne_nil _ (List.append_eq_nil.1 h0).2

theorem numToStr_chars (q : ℚ) :
    ∀ ch ∈ numToStr q, isDigitChar ch = true ∨ ch = '-' ∨ ch = '.' := by
  intro ch hch
  unfold numToStr at hch
  rcases hk : decExp q.den with _ | k <;> rw [hk] at hch <;> dsimp only at hch
  · rw [List.mem_singleton] at hch
    subst hch
    exact Or.inl (by decide)
  · rcases List.mem_append.1 hch with h1 | h2
    · by_cases hn : q.num < 0
      · rw [if_pos hn, List.mem_singleton] at h1
        exact Or.inr (Or.inl h1)
      · rw [if_neg hn] at h1
        exact absurd h1 (List.not_mem_nil ch)
    · by_cases hz : k = 0
      · rw [if_pos hz] at h2
        exact Or.inl (decPadded_digits q k ch h2)
      · rw [if_neg hz] at h2
        rcases List.mem_append.1 h2 with h3 | h4
        · exact Or.inl (decPadded_digits q k ch (List.take_subset _ _ h3))
        · rcases List.mem_cons.1 h4 with h5 | h6
          · exact Or.inr (Or.inr h5)
          · exact Or.inl (decPadded_digits q k ch (List.drop_subset _ _ h6))

theorem numToStr_ne_nil (q : ℚ) : numToStr q ≠ [] := by
  unfold numToStr
  rcases hk : decExp q.den with _ | k <;> dsimp only
  · simp
  · intro h0
    rcases List.append_eq_nil.1 h0 with ⟨-, h2⟩
    by_cases hz : k = 0
    · rw [if_pos hz] at h2
      exact decPadded_ne_nil q k h2
    · rw [if_neg hz] at h2
      exact absurd (List.append_eq_nil.1 h2).2 (by simp)

theorem numToStr_no_space (q : ℚ) : ∀ ch ∈ numToStr q, (ch == ' ') = false := by
  intro ch hch
  rcases numToStr_chars q ch hch with h | h | h
  · exact beq_eq_false_iff_ne.2 (isDigitChar_ne ch ' ' h (Or.inl (by decide)))
  · subst h
    decide
  · subst h
    decide

theorem validCoordPair_some (c : Option ℚ × Option ℚ) (h : validCoordPair c = true) :
    ∃ lon lat, c.1 = some lon ∧ c.2 = some lat ∧
      -180 ≤ lon ∧ lon ≤ 180 ∧ -90 ≤ lat ∧ lat ≤ 90 := by
  rcases c with ⟨o1, o2⟩
  rcases o1 with _ | lon
  · exact absurd h (by simp [validCoordPair])
  rcases o2 with _ | lat
  · exact absurd h (by simp [validCoordPair])
  simp only [validCoordPair, Bool.and_eq_true, decide_eq_true_eq] at h
  exact ⟨lon, lat, rfl, rfl, h.1.1.1, h.1.1.2, h.1.2, h.2⟩

theorem rendered_pair_chars (c : Option ℚ × Option ℚ) (hc : validCoordPair c = true) :
    ∀ ch ∈ numToStrJS c.1 ++ ' ' :: numToStrJS c.2,
      ch = ' ' ∨ isDigitChar ch = true ∨ ch = '-' ∨ ch = '.' := by
  obtain ⟨lon, lat, h1, h2, -⟩ := validCoordPair_some c hc
  rw [h1, h2, numToStrJS_some, numToStrJS_some]
  intro ch hch
  rcases List.mem_append.1 hch with hl | hr
  · exact Or.inr (numToStr_chars lon ch hl)
  · rcases List.mem_cons.1 hr with h3 | h4
    · exact Or.inl h3
    · exact Or.inr (numToStr_chars lat ch h4)

theorem rendered_pair_no_char (c : Option ℚ × Option ℚ) (hc : validCoordPair c = true)
    (c2 : Char) (h2 : c2.toNat < 45) (h3 : c2 ≠ ' ') :
    ∀ ch ∈ numToStrJS c.1 ++ ' ' :: numToStrJS c.2, (ch == c2) = false := by
  intro ch hch
  rcases rendered_pair_chars c hc ch hch with h | h | h | h
  · subst h
    exact beq_eq_false_iff_ne.2 (fun he => h3 he.symm)
  · exact beq_eq_false_iff_ne.2 (isDigitChar_ne ch c2 h (Or.inl (by omega)))
  · subst h
    exact beq_eq_false_iff_ne.2 (by intro he; rw [← he] at h2; revert h2; decide)
  · subst h
    exact beq_eq_false_iff_ne.2 (by intro he; rw [← he] at h2; revert h2; decide)

theorem mem_jsJoin (sep : List Char) (parts : List (List Char)) (ch : Char)
    (h : ch ∈ jsJoin sep parts) : ch ∈ sep ∨ ∃ p ∈ parts, ch ∈ p := by
  induction parts with
  | nil => exact absurd h (List.not_mem_nil ch)
  | cons p ps ih =>
    rcases ps with _ | ⟨q, qs⟩
    · exact Or.inr ⟨p, List.mem_cons_self p [], h⟩
    · rw [show jsJoin sep (p :: q :: qs) = p ++ sep ++ jsJoin sep (q :: qs) from rfl] at h
      rcases List.mem_append.1 h with h1 | h2
      · rcases List.mem_append.1 h1 with h3 | h4
        · exact Or.inr ⟨p, List.mem_cons_self p _, h3⟩
        · exact Or.inl h4
      · rcases ih h2 with h5 | ⟨x, hx, hchx⟩
        · exact Or.inl h5
        · exact Or.inr ⟨x, List.mem_cons_of_mem _ hx, hchx⟩

theorem splitSep_cons_no_sep (p : α → Bool) (x : α) (xs : List α) (hx : p x = false)
    (hd : List α) (tl : List (List α)) (hs : splitSep p xs = hd :: tl) :
    splitSep p (x :: xs) = (x :: hd) :: tl := by
  rw [splitSep_cons, hs, if_neg (by simp [hx])]
  rfl

theorem jsSplit_join_comma (a : List Char) (ps : List (List Char))
    (h : ∀ x ∈ a :: ps, ∀ ch ∈ x, (ch == ',') = false) :
    jsSplit ',' (jsJoin (str ", ") (a :: ps)) = a :: ps.map (fun x => ' ' :: x) := by
  induction ps generalizing a with
  | nil =>
    show jsSplit ',' a = [a]
    exact splitSep_no_sep _ a (h a (List.mem_cons_self a []))
  | cons q qs ih =>
    have hshape : jsJoin (str ", ") (a :: q :: qs) =
        a ++ ',' :: ' ' :: jsJoin (str ", ") (q :: qs) := by
      show a ++ str ", " ++ jsJoin (str ", ") (q :: qs) = _
      rw [List.append_assoc]
      rfl
    rw [hshape, jsSplit,
      splitSep_append_sep _ a ',' (' ' :: jsJoin (str ", ") (q :: qs))
        (h a (List.mem_cons_self a _)) (by decide)]
    congr 1
    have hih := ih q (fun x hx ch hch => h x (List.mem_cons_of_mem a hx) ch hch)
    rw [jsSplit] at hih
    rw [splitSep_cons_no_sep _ ' ' _ (by decide) q (qs.map (fun x => ' ' :: x)) hih,
      List.map_cons]

theorem jsTrim_pair (lon lat : ℚ) :
    jsTrim (numToStr lon ++ ' ' :: numToStr lat) = numToStr lon ++ ' ' :: numToStr lat := by
  apply jsTrim_eq_self
  · intro c hc
    rcases heq : numToStr lon with _ | ⟨h0, hs⟩
    · exact absurd heq (numToStr_ne_nil lon)
    · rw [heq, List.cons_append, List.head?_cons, Option.some_inj] at hc
      rw [← hc]
      have hmem : h0 ∈ numToStr lon := by
        rw [heq]
        exact List.mem_cons_self h0 hs
      exact numToStr_no_space lon h0 hmem
  · intro c hc
    rcases heq : numToStr lat with _ | ⟨a0, as⟩
    · exact absurd heq (numToStr_ne_nil lat)
    · rw [heq, List.getLast?_append, List.getLast?_cons_cons,
        List.getLast?_eq_getLast (a0 :: as) (by simp)] at hc
      have hc2 : (a0 :: as).getLast (by simp) = c := Option.some_inj.1 hc
      rw [← hc2]
      have hmem : (a0 :: as).getLast (by simp) ∈ numToStr lat := by
        rw [heq]
        exact List.getLast_mem (by simp)
      exact numToStr_no_space lat _ hmem

theorem jsSplit_pair (lon lat : ℚ) :
    jsSplit ' ' (numToStr lon ++ ' ' :: numToStr lat) = [numToStr lon, numToStr lat] := by
  rw [jsSplit, splitSep_append_sep _ (numToStr lon) ' ' (numToStr lat)
    (numToStr_no_space lon) (by decide),
    splitSep_no_sep _ (numToStr lat) (numToStr_no_space lat)]

theorem parse_rendered_pair (o : Option ℚ × Option ℚ) (hvalid : validCoordPair o = true)
    (hd1 : optDecimal o.1 = true) (hd2 : optDecimal o.2 = true) :
    (((jsSplit ' ' (jsTrim (numToStrJS o.1 ++ ' ' :: numToStrJS o.2))).map jsNumber).getD 0 none,
     ((jsSplit ' ' (jsTrim (numToStrJS o.1 ++ ' ' :: numToStrJS o.2))).map jsNumber).getD 1 none)
      = o := by
  obtain ⟨lon, lat, h1, h2, -⟩ := validCoordPair_some o hvalid
  obtain ⟨o1, o2⟩ := o
  dsimp only at h1 h2 ⊢
  subst h1
  subst h2
  have hlon : IsDecimalRat lon := hd1
  have hlat : IsDecimalRat lat := hd2
  rw [numToStrJS_some, numToStrJS_some, jsTrim_pair, jsSplit_pair, List.map_cons,
    List.map_cons, List.map_nil, jsNumber_numToStr lon hlon, jsNumber_numToStr lat hlat]
  rfl

theorem parse_rendered_pair_sp (o : Option ℚ × Option ℚ) (hvalid : validCoordPair o = true)
    (hd1 : optDecimal o.1 = true) (hd2 : optDecimal o.2 = true) :
    (((jsSplit ' ' (jsTrim (' ' :: (numToStrJS o.1 ++ ' ' :: numToStrJS o.2)))).map
        jsNumber).getD 0 none,
     ((jsSplit ' ' (jsTrim (' ' :: (numToStrJS o.1 ++ ' ' :: numToStrJS o.2)))).map
        jsNumber).getD 1 none) = o := by
  rw [jsTrim_cons_space]
  exact parse_rendered_pair o hvalid hd1 hd2

theorem list_map_self (f : α → α) : ∀ (l : List α), (∀ x ∈ l, f x = x) → l.map f = l := by
  intro l
  induction l with
  | nil => intro h; rfl
  | cons x xs ih =>
    intro h
    rw [List.map_cons, h x (List.mem_cons_self x xs),
      ih (fun y hy => h y (List.mem_cons_of_mem x hy))]

/-- **C9.** For every GeoJSON LineString whose coordinates pass
`validateCoordinates` (at least 2 pairs of finite JS numbers — rationals
with a finite decimal expansion, as every finite IEEE 754 double is —
with longitude in [-180, 180] and latitude in [-90, 90]), converting it
to WKT with `geojsonToWKT` and back with `wktToGeoJSON` returns a
non-null Feature whose coordinate list is equal to the original: same
length, same order, same longitude/latitude values. -/
theorem wkt_roundtrip (coords : List (Option ℚ × Option ℚ))
    (hdec : ∀ c ∈ coords, optDecimal c.1 = true ∧ optDecimal c.2 = true)
    (hval : validateCoordinates coords = true) :
    wktToGeoJSON (geojsonToWKT (some (GeoObject.lineString coords))) =
      some (GeoObject.feature (GeoObject.lineString coords)) := by
  have hv := hval
  rw [validateCoordinates, Bool.and_eq_true, decide_eq_true_eq, List.all_eq_true] at hv
  obtain ⟨-, hall⟩ := hv
  rcases coords with _ | ⟨c0, cs⟩
  · exact absurd hval (by decide)
  have hwkt : geojsonToWKT (some (GeoObject.lineString (c0 :: cs))) =
      some (str "LINESTRING(" ++
        jsJoin (str ", ")
          ((c0 :: cs).map (fun c => numToStrJS c.1 ++ ' ' :: numToStrJS c.2)) ++ [')']) := by
    unfold geojsonToWKT
    dsimp only
    rw [if_pos hval]
  rw [hwkt]
  set J : List Char :=
    jsJoin (str ", ") ((c0 :: cs).map (fun c => numToStrJS c.1 ++ ' ' :: numToStrJS c.2))
    with hJ
  have hJparen : ')' ∉ J := by
    intro hmem
    rw [hJ] at hmem
    rcases mem_jsJoin _ _ ')' hmem with h1 | ⟨p, hp, hchp⟩
    · revert h1
      decide
    · obtain ⟨c, hc, rfl⟩ := List.mem_map.1 hp
      exact absurd (rendered_pair_no_char c (hall c hc) ')' (by decide) (by decide) ')' hchp)
        (by decide)
  have hne : str "LINESTRING(" ++ J ++ [')'] ≠ [] := by
    intro h0
    rcases List.append_eq_nil.1 h0 with ⟨h1, -⟩
    rcases List.append_eq_nil.1 h1 with ⟨h2, -⟩
    revert h2
    decide
  have hstep1 : jsRemoveFirst (str "LINESTRING(") (str "LINESTRING(" ++ J ++ [')']) =
      J ++ [')'] := by
    rw [List.append_assoc]
    exact jsRemoveFirst_of_prefix _ _ (by decide)
  have hstep2 : jsRemoveFirst [')'] (J ++ [')']) = J := jsRemoveFirst_last ')' J hJparen
  have hsplitJ : jsSplit ',' J =
      (numToStrJS c0.1 ++ ' ' :: numToStrJS c0.2) ::
        (cs.map (fun c => numToStrJS c.1 ++ ' ' :: numToStrJS c.2)).map
          (fun x => ' ' :: x) := by
    rw [hJ, List.map_cons]
    refine jsSplit_join_comma _ _ ?_
    intro x hx ch hch
    rcases List.mem_cons.1 hx with h1 | h2
    · subst h1
      exact rendered_pair_no_char c0 (hall c0 (List.mem_cons_self c0 cs)) ','
        (by decide) (by decide) ch hch
    · obtain ⟨c, hc, rfl⟩ := List.mem_map.1 h2
      exact rendered_pair_no_char c (hall c (List.mem_cons_of_mem c0 hc)) ','
        (by decide) (by decide) ch hch
  unfold wktToGeoJSON
  dsimp only
  rw [if_neg hne, hstep1, hstep2, hsplitJ]
  have hL : ((numToStrJS c0.1 ++ ' ' :: numToStrJS c0.2) ::
        (cs.map (fun c => numToStrJS c.1 ++ ' ' :: numToStrJS c.2)).map
          (fun x => ' ' :: x)).map
      (fun pair =>
        (((jsSplit ' ' (jsTrim pair)).map jsNumber).getD 0 none,
         ((jsSplit ' ' (jsTrim pair)).map jsNumber).getD 1 none)) = c0 :: cs := by
    rw [List.map_cons]
    congr 1
    · exact parse_rendered_pair c0 (hall c0 (List.mem_cons_self c0 cs))
        (hdec c0 (List.mem_cons_self c0 cs)).1 (hdec c0 (List.mem_cons_self c0 cs)).2
    · rw [List.map_map, List.map_map]
      exact list_map_self _ cs (fun c hc =>
        parse_rendered_pair_sp c (hall c (List.mem_cons_of_mem c0 hc))
          (hdec c (List.mem_cons_of_mem c0 hc)).1 (hdec c (List.mem_cons_of_mem c0 hc)).2)
  rw [hL, if_pos hval]

/-- Witness for C9: the round-trip on a concrete two-point LineString
near Peso da Régua. -/
theorem wkt_roundtrip_witness :
    wktToGeoJSON (geojsonToWKT (some (GeoObject.lineString
        [(some (-7.8 : ℚ), some (41 : ℚ)), (some (-7.85 : ℚ), some (41.1 : ℚ))]))) =
      some (GeoObject.feature (GeoObject.lineString
        [(some (-7.8 : ℚ), some (41 : ℚ)), (some (-7.85 : ℚ), some (41.1 : ℚ))])) :=
  wkt_roundtrip _ (by decide) (by decide)

/-! ## gpxExport.js : GPX generation -/

/-- The geometry field of a road as `extractCoordinates` dispatches on
it: a WKT string or a GeoJSON value. -/
inductive GeometryInput where
  | wktString (s : List Char) : GeometryInput
  | geoJson (g : GeoObject) : GeometryInput
deriving DecidableEq

/-- gpxExport.js `extractCoordinates`: a WKT string goes through
`wktToGeoJSON` (a falsy result or one without coordinates is a
failure); a GeoJSON Feature yields its geometry's coordinates (absent
for a non-LineString geometry), a LineString its own, and anything else
is unsupported. -/
def extractCoordinates (geometry : GeometryInput) :
    Option (List (Option ℚ × Option ℚ)) :=
  match geometry with
  | GeometryInput.wktString s =>
    match wktToGeoJSON (some s) with
    | some (GeoObject.feature (GeoObject.lineString coords)) => some coords
    | _ => none
  | GeometryInput.geoJson g =>
    match g with
    | GeoObject.feature (GeoObject.lineString coords) => some coords
    | GeoObject.feature _ => none
    | GeoObject.lineString coords => some coords
    | GeoObject.otherGeometry => none

/-- A road row as generateGPX reads it. `none` models an absent
(undefined/null) field. -/
structure Road where
  geometry : Option GeometryInput
  code : List Char
  name : List Char
  distance_km : Option ℚ
  curve_count_total : Option ℕ
  surface : Option (List Char)
  elevations : Option (List (Option ℚ))
deriving DecidableEq

/-- JS falsiness of the geometry field: absent, or an empty WKT
string (objects are always truthy). -/
def geometryFalsy : Option GeometryInput → Bool
  | none => true
  | some (GeometryInput.wktString s) => s.isEmpty
  | some (GeometryInput.geoJson _) => false

/-- JS `String.prototype.replace` with a global one-character pattern. -/
def jsReplaceAll (pat : Char) (rep : List Char) : List Char → List Char
  | [] => []
  | c :: cs => (if c = pat then rep else [c]) ++ jsReplaceAll pat rep cs

/-- gpxExport.js `escapeXML`: empty for falsy input, else the five XML
special characters replaced in sequence. -/
def escapeXML (text : List Char) : List Char :=
  if text.isEmpty then []
  else jsReplaceAll (Char.ofNat 39) (str "&apos;")
    (jsReplaceAll (Char.ofNat 34) (str "&quot;")
      (jsReplaceAll '>' (str "&gt;")
        (jsReplaceAll '<' (str "&lt;")
          (jsReplaceAll '&' (str "&amp;") text))))

/-- gpxExport.js `getElevation`: the road's elevations array at the
index when it holds a finite number there, else null. -/
def getElevation (road : Road) (index : ℕ) : Option ℚ :=
  match road.elevations with
  | some els =>
    match els.getD index none with
    | some e => some e
    | none => none
  | none => none

/-- The characters a filename may not contain, replaced by `-` in the
download name. -/
def forbiddenFileChar (c : Char) : Bool :=
  c == '/' || c == Char.ofNat 92 || c == ':' || c == '*' || c == '?' ||
    c == Char.ofNat 34 || c == '<' || c == '>' || c == '|'

/-- `road.code.replace(/[\/\\:*?"<>|]/g, '-')`. -/
def sanitizeFilename (code : List Char) : List Char :=
  code.map (fun c => if forbiddenFileChar c then '-' else c)

/-- The `descParts` array: distance, curve count and surface, each
included only when truthy (a number is falsy at 0, a string when
empty). -/
def descPartsOf (road : Road) : List (List Char) :=
  (match road.distance_km with
   | some d => if d ≠ 0 then [numToStr d ++ str "km"] else []
   | none => []) ++
  (match road.curve_count_total with
   | some n => if n ≠ 0 then [natDigits n ++ str " curves"] else []
   | none => []) ++
  (match road.surface with
   | some s => if s ≠ [] then [s] else []
   | none => [])

/-- The newline of the GPX template. -/
def xmlNL : List Char := [Char.ofNat 10]

/-- A double quote of the GPX template. -/
def xmlQ : List Char := [Char.ofNat 34]

/-- One `<trkpt>` line of the template: latitude and longitude
attributes, with an `<ele>` child when elevation data exists. -/
def trkptOf (road : Road) (index : ℕ) (coord : Option ℚ × Option ℚ) : List Char :=
  str "      <trkpt lat=" ++ xmlQ ++ numToStrJS coord.2 ++ xmlQ ++
    str " lon=" ++ xmlQ ++ numToStrJS coord.1 ++ xmlQ ++ str ">" ++
  (match getElevation road index with
   | some e => xmlNL ++ str "        <ele>" ++ numToStr e ++ str "</ele>" ++ xmlNL ++ str "      "
   | none => []) ++
  str "</trkpt>"

/-- The `gpxXML` template literal of `generateGPX`. -/
def gpxXML (road : Road) (coordinates : List (Option ℚ × Option ℚ)) : List Char :=
  let description :=
    if 0 < (descPartsOf road).length then jsJoin (str " • ") (descPartsOf road)
    else str "Road Explorer Portugal"
  str "<?xml version=" ++ xmlQ ++ str "1.0" ++ xmlQ ++ str " encoding=" ++ xmlQ ++
    str "UTF-8" ++ xmlQ ++ str "?>" ++ xmlNL ++
  str "<gpx version=" ++ xmlQ ++ str "1.1" ++ xmlQ ++ xmlNL ++
  str "     creator=" ++ xmlQ ++ str "Road Explorer Portugal" ++ xmlQ ++ xmlNL ++
  str "     xmlns=" ++ xmlQ ++ str "http://www.topografix.com/GPX/1/1" ++ xmlQ ++ xmlNL ++
  str "     xmlns:xsi=" ++ xmlQ ++ str "http://www.w3.org/2001/XMLSchema-instance" ++
    xmlQ ++ xmlNL ++
  str "     xsi:schemaLocation=" ++ xmlQ ++
    str "http://www.topografix.com/GPX/1/1 http://www.topografix.com/GPX/1/1/gpx.xsd" ++
    xmlQ ++ str ">" ++ xmlNL ++
  str "  <metadata>" ++ xmlNL ++
  str "    <name>" ++ escapeXML road.code ++ str " - " ++ escapeXML road.name ++
    str "</name>" ++ xmlNL ++
  str "    <desc>" ++ escapeXML description ++ str "</desc>" ++ xmlNL ++
  str "    <author>" ++ xmlNL ++
  str "      <name>Road Explorer Portugal</name>" ++ xmlNL ++
  str "    </author>" ++ xmlNL ++
  str "  </metadata>" ++ xmlNL ++
  str "  <trk>" ++ xmlNL ++
  str "    <name>" ++ escapeXML road.code ++ str "</name>" ++ xmlNL ++
  str "    <desc>" ++ escapeXML road.name ++ str "</desc>" ++ xmlNL ++
  str "    <trkseg>" ++ xmlNL ++
  jsJoin xmlNL (coordinates.enum.map (fun ic => trkptOf road ic.1 ic.2)) ++ xmlNL ++
  str "    </trkseg>" ++ xmlNL ++
  str "  </trk>" ++ xmlNL ++
  str "</gpx>"

/-- A created `Blob`: its content and MIME type. -/
structure Blob where
  content : List Char
  mimeType : List Char
deriving DecidableEq

/-- What `generateGPX` returns: the success flag and the fields the two
kinds of result objects carry (`none` for a field the returned object
does not have). -/
structure GPXResult where
  success : Bool
  error : Option (List Char)
  blob : Option Blob
  filename : Option (List Char)
  xml : Option (List Char)
deriving DecidableEq

/-- `extractCoordinates(road.geometry)`: with the geometry field absent
the dispatch finds no supported shape and the call fails to null. -/
def extractedCoords (r : Road) : Option (List (Option ℚ × Option ℚ)) :=
  match r.geometry with
  | some geom => extractCoordinates geom
  | none => none

/-- gpxExport.js `generateGPX`. -/
def generateGPX (road : Option Road) : GPXResult :=
  match road with
  | none => GPXResult.mk false (some (str "Road data is required")) none none none
  | some r =>
    if geometryFalsy r.geometry then
      GPXResult.mk false (some (str "Road geometry is required")) none none none
    else if r.code.isEmpty || r.name.isEmpty then
      GPXResult.mk false (some (str "Road code and name are required")) none none none
    else
      match extractedCoords r with
      | none =>
        GPXResult.mk false (some (str "Failed to extract coordinates from geometry"))
          none none none
      | some coordinates =>
        if coordinates.length = 0 then
          GPXResult.mk false (some (str "Failed to extract coordinates from geometry"))
            none none none
        else
          GPXResult.mk true none
            (some (Blob.mk (gpxXML r coordinates) (str "application/gpx+xml")))
            (some (sanitizeFilename r.code ++ str ".gpx"))
            (some (gpxXML r coordinates))

/-- **C10.** `generateGPX` never throws: it is total, and for every
input it returns success=false with an error message and no blob
exactly when the road is missing, the road's geometry is missing (or a
falsy empty WKT string), the road's code or name is missing/empty, or
no coordinates can be extracted from the geometry (including an empty
extraction); otherwise it returns success=true with a blob, the GPX
XML, and a filename derived from the road code with
filesystem-forbidden characters replaced. -/
theorem generateGPX_total_characterization (road : Option Road) :
    ((generateGPX road).success = false ↔
        road = none ∨ ∃ rd, road = some rd ∧
          (geometryFalsy rd.geometry = true ∨
            (rd.code.isEmpty || rd.name.isEmpty) = true ∨
            extractedCoords rd = none ∨ extractedCoords rd = some [])) ∧
    ((generateGPX road).success = false →
        ((generateGPX road).error).isSome = true ∧ (generateGPX road).blob = none) ∧
    ((generateGPX road).success = true →
        ∃ rd coords, road = some rd ∧ extractedCoords rd = some coords ∧
          (generateGPX road).error = none ∧
          (generateGPX road).blob =
            some (Blob.mk (gpxXML rd coords) (str "application/gpx+xml")) ∧
          (generateGPX road).xml = some (gpxXML rd coords) ∧
          (generateGPX road).filename = some (sanitizeFilename rd.code ++ str ".gpx")) := by
  rcases road with _ | rd
  · exact ⟨⟨fun _ => Or.inl rfl, fun _ => rfl⟩, fun _ => ⟨rfl, rfl⟩,
      fun h => Bool.noConfusion h⟩
  · by_cases hg : geometryFalsy rd.geometry = true
    · have hgen : generateGPX (some rd) =
          GPXResult.mk false (some (str "Road geometry is required")) none none none := by
        unfold generateGPX
        dsimp only
        rw [if_pos hg]
      rw [hgen]
      exact ⟨⟨fun _ => Or.inr ⟨rd, rfl, Or.inl hg⟩, fun _ => rfl⟩, fun _ => ⟨rfl, rfl⟩,
        fun h => Bool.noConfusion h⟩
    · by_cases hcn : (rd.code.isEmpty || rd.name.isEmpty) = true
      · have hgen : generateGPX (some rd) =
            GPXResult.mk false (some (str "Road code and name are required")) none none none := by
          unfold generateGPX
          dsimp only
          rw [if_neg hg, if_pos hcn]
        rw [hgen]
        exact ⟨⟨fun _ => Or.inr ⟨rd, rfl, Or.inr (Or.inl hcn)⟩, fun _ => rfl⟩,
          fun _ => ⟨rfl, rfl⟩, fun h => Bool.noConfusion h⟩
      · rcases hec : extractedCoords rd with _ | coords
        · have hgen : generateGPX (some rd) =
              GPXResult.mk false (some (str "Failed to extract coordinates from geometry"))
                none none none := by
            unfold generateGPX
            dsimp only
            rw [if_neg hg, if_neg hcn, hec]
          rw [hgen]
          exact ⟨⟨fun _ => Or.inr ⟨rd, rfl, Or.inr (Or.inr (Or.inl hec))⟩, fun _ => rfl⟩,
            fun _ => ⟨rfl, rfl⟩, fun h => Bool.noConfusion h⟩
        · by_cases hce : coords.length = 0
          · have hnil : coords = [] := List.length_eq_zero.1 hce
            have hgen : generateGPX (some rd) =
                GPXResult.mk false (some (str "Failed to extract coordinates from geometry"))
                  none none none := by
              unfold generateGPX
              dsimp only
              rw [if_neg hg, if_neg hcn, hec]
              dsimp only
              rw [if_pos hce]
            rw [hgen]
            refine ⟨⟨fun _ => Or.inr ⟨rd, rfl, Or.inr (Or.inr (Or.inr ?_))⟩, fun _ => rfl⟩,
              fun _ => ⟨rfl, rfl⟩, fun h => Bool.noConfusion h⟩
            rw [hec, hnil]
          · have hgen : generateGPX (some rd) =
                GPXResult.mk true none
                  (some (Blob.mk (gpxXML rd coords) (str "application/gpx+xml")))
                  (some (sanitizeFilename rd.code ++ str ".gpx"))
                  (some (gpxXML rd coords)) := by
              unfold generateGPX
              dsimp only
              rw [if_neg hg, if_neg hcn, hec]
              dsimp only
              rw [if_neg hce]
            rw [hgen]
            refine ⟨⟨fun h => Bool.noConfusion h, fun hr => ?_⟩,
              fun h => Bool.noConfusion h,
              fun _ => ⟨rd, coords, rfl, hec, rfl, rfl, rfl, rfl⟩⟩
            rcases hr with h0 | ⟨rd2, heq, hcase⟩
            · exact Option.noConfusion h0
            · have hrd : rd = rd2 := Option.some_inj.1 heq
              subst hrd
              rcases hcase with h | h | h | h
              · exact absurd h hg
              · exact absurd h hcn
              · rw [hec] at h
                exact Option.noConfusion h
              · rw [hec] at h
                have hn : coords = [] := Option.some_inj.1 h
                exact absurd (by rw [hn]; rfl : coords.length = 0) hce

end ScenicRoutes
